/-
  Verification of the regscope image-queue core
  (src/Desktop/clients/tiktok/backend: image_queue.py, api_key_manager.py,
   queue_processor.py, config.py).

  Shallow embedding: Redis structures become Lean lists/association lists,
  `time.time()` becomes a logical clock of natural-number seconds, and the
  queue/scheduler operations become pure state-transition functions translated
  line by line from the Python source.
-/
import Mathlib

set_option maxRecDepth 10000

namespace Regscope

/-! ## String helpers

Python string primitives used by the source, re-implemented over character
lists so that they reduce in the kernel (`String.toLower`, `String.toInt?`
and substring search from the standard library do not). -/

/-- Python `str.lower()`. -/
def pyLower (s : String) : String := String.mk (s.data.map Char.toLower)

/-- Decimal digits to a number; `none` if empty or a non-digit appears
(Python `int(...)` raising `ValueError`). -/
def parseDigits (l : List Char) : Option Nat :=
  match l with
  | [] => none
  | _ =>
    l.foldl
      (fun acc c =>
        match acc with
        | none => none
        | some n => if c.isDigit then some (n * 10 + (c.toNat - 48)) else none)
      (some 0)

/-- Python `int(s)` on a string: optional sign then decimal digits. -/
def pyInt? (s : String) : Option Int :=
  match s.data with
  | '-' :: rest => (parseDigits rest).map (fun n => -(n : Int))
  | '+' :: rest => (parseDigits rest).map (fun n => (n : Int))
  | l => (parseDigits l).map (fun n => (n : Int))

/-- Does `pat` occur as a contiguous sublist of `hay`? -/
def charsContain (hay pat : List Char) : Bool :=
  match hay with
  | [] => pat.isEmpty
  | _ :: t => pat.isPrefixOf hay || charsContain t pat

/-- Python `pat in s` on strings. -/
def strIn (pat s : String) : Bool := charsContain s.data pat.data

/-! ## JSON values

`ImageTask.to_dict` serializes the four dict-valued fields with `json.dumps`
and `from_dict` restores them with `json.loads`.  We model JSON values as an
inductive (numbers restricted to integers, which covers the integer fields the
round-trip claim is about).  The external `json` library is modelled by its
contract: `loads (dumps v) = v` for values of this type; `dumps v` is
represented by the wire constructor `RVal.jsonStr v` below. -/

inductive Json where
  | null : Json
  | bool (b : Bool) : Json
  | num (n : Int) : Json
  | str (s : String) : Json
  | arr (xs : List Json) : Json
  | obj (kvs : List (String × Json)) : Json
deriving Inhabited

/-! ## ImageTask (image_queue.py lines 40-141)

All dataclass fields, with Python `str` as `String`, `bool` as `Bool`,
`int` as `Int`, and `Dict[str, Any]` as `Json`. -/

structure ImageTask where
  task_id : String
  job_id : String
  job_type : String
  dependency_group : String := ""
  dependency_type : String := "none"
  depends_on_task_id : String := ""
  slide_type : String := ""
  slide_index : Int := 0
  scene_description : String := ""
  text_content : String := ""
  text_position_hint : String := ""
  reference_image_path : String := ""
  product_image_path : String := ""
  persona_reference_path : String := ""
  has_persona : Bool := false
  text_style : Json := Json.obj []
  visual_style : Json := Json.obj []
  persona_info : Json := Json.obj []
  clean_image_mode : Bool := false
  product_description : String := ""
  shows_product_on_face : Bool := false
  transformation_role : String := ""
  transformation_problem : String := ""
  layout_type : String := "single"
  split_config : Json := Json.obj []
  version : Int := 1
  output_path : String := ""
  output_dir : String := ""
  retry_count : Int := 0
  last_error : String := ""
  created_at : String := ""
  started_at : String := ""
  completed_at : String := ""
deriving Inhabited

/-! ## Wire values (the dict produced by `to_dict` / consumed by `from_dict`)

A Redis-hash value as handled by the Python code: a string, an int, a bool,
a raw dict, or the `json.dumps` of a JSON value (`jsonStr v` is a Python
string; `isinstance(·, str)` is true for it). -/

inductive RVal where
  | s (v : String) : RVal
  | i (v : Int) : RVal
  | b (v : Bool) : RVal
  | j (v : Json) : RVal          -- a raw dict value (never produced by to_dict)
  | jsonStr (v : Json) : RVal    -- the string json.dumps v
deriving Inhabited

/-- `isinstance(x, str)` on a wire value. -/
def RVal.isStr : RVal → Bool
  | RVal.s _ => true
  | RVal.jsonStr _ => true
  | _ => false

/-- `json.loads` applied to a wire value known to be a string
(library contract: the dumps of `v` parses back to `v`; any other string
is treated as unparsable, which is the only case the round trip meets). -/
def RVal.loadsJson : RVal → Option Json
  | RVal.jsonStr v => some v
  | _ => none

/-- The record produced by `ImageTask.to_dict` / consumed by `from_dict`.
Fields that `from_dict` converts (dict-, bool- and int-valued) are wire
values; the remaining fields receive no conversion in `from_dict`
(`cls(**data)` takes them as-is), so they are carried as the strings
`to_dict` emits. -/
structure TaskRecord where
  task_id : String
  job_id : String
  job_type : String
  dependency_group : String
  dependency_type : String
  depends_on_task_id : String
  slide_type : String
  slide_index : RVal
  scene_description : String
  text_content : String
  text_position_hint : String
  reference_image_path : String
  product_image_path : String
  persona_reference_path : String
  has_persona : RVal
  text_style : RVal
  visual_style : RVal
  persona_info : RVal
  clean_image_mode : RVal
  product_description : String
  shows_product_on_face : RVal
  transformation_role : String
  transformation_problem : String
  layout_type : String
  split_config : RVal
  version : RVal
  output_path : String
  output_dir : String
  retry_count : RVal
  last_error : String
  created_at : String
  started_at : String
  completed_at : String

/-- `ImageTask.to_dict` (image_queue.py lines 87-101): `asdict`, then the four
dict fields become `json.dumps` strings, then booleans become the strings
`"true"`/`"false"` (the fields of our `ImageTask` are never `None`, so the
`None → ''` branch is vacuous; ints pass through unchanged). -/
def ImageTask.to_dict (t : ImageTask) : TaskRecord where
  task_id := t.task_id
  job_id := t.job_id
  job_type := t.job_type
  dependency_group := t.dependency_group
  dependency_type := t.dependency_type
  depends_on_task_id := t.depends_on_task_id
  slide_type := t.slide_type
  slide_index := RVal.i t.slide_index
  scene_description := t.scene_description
  text_content := t.text_content
  text_position_hint := t.text_position_hint
  reference_image_path := t.reference_image_path
  product_image_path := t.product_image_path
  persona_reference_path := t.persona_reference_path
  has_persona := RVal.s (if t.has_persona then "true" else "false")
  text_style := RVal.jsonStr t.text_style
  visual_style := RVal.jsonStr t.visual_style
  persona_info := RVal.jsonStr t.persona_info
  clean_image_mode := RVal.s (if t.clean_image_mode then "true" else "false")
  product_description := t.product_description
  shows_product_on_face := RVal.s (if t.shows_product_on_face then "true" else "false")
  transformation_role := t.transformation_role
  transformation_problem := t.transformation_problem
  layout_type := t.layout_type
  split_config := RVal.jsonStr t.split_config
  version := RVal.i t.version
  output_path := t.output_path
  output_dir := t.output_dir
  retry_count := RVal.i t.retry_count
  last_error := t.last_error
  created_at := t.created_at
  started_at := t.started_at
  completed_at := t.completed_at

/-- The dict-field conversion of `from_dict`: if the value is a string, parse
it as JSON, defaulting to `{}` on failure; otherwise leave it as-is
(`cls(**data)` then requires a dict). -/
def fromDictJsonField : RVal → Option Json
  | RVal.s _ => some (Json.obj [])          -- string that fails json.loads → {}
  | RVal.jsonStr v => some v                -- dumps output parses back
  | RVal.j v => some v                      -- already a dict: left untouched
  | _ => none                               -- int/bool: constructor gets a non-dict

/-- The boolean-field conversion of `from_dict`:
`data[f].lower() == 'true'` when the value is a string, otherwise passed
through (must be a bool for the constructor). -/
def fromDictBoolField : RVal → Option Bool
  | RVal.s v => some (pyLower v == "true")
  | RVal.jsonStr _ => some false            -- a dumps string never lowercases to "true"
  | RVal.b v => some v
  | _ => none

/-- The integer-field conversion of `from_dict`:
`int(data[f]) if data[f] else 0` when the value is a string
(`String.toInt?` models Python `int`; failure raises, modelled as `none`),
otherwise passed through (must be an int). -/
def fromDictIntField : RVal → Option Int
  | RVal.s v => if v = "" then some 0 else pyInt? v
  | RVal.i v => some v
  | _ => none

/-- `ImageTask.from_dict` (image_queue.py lines 103-141): JSON-decode the four
dict fields, parse the three boolean fields, parse the three integer fields,
then `cls(**data)`. -/
def ImageTask.from_dict (d : TaskRecord) : Option ImageTask :=
  (fromDictJsonField d.text_style).bind fun ts =>
  (fromDictJsonField d.visual_style).bind fun vs =>
  (fromDictJsonField d.persona_info).bind fun pif =>
  (fromDictJsonField d.split_config).bind fun sc =>
  (fromDictBoolField d.has_persona).bind fun hp =>
  (fromDictBoolField d.clean_image_mode).bind fun cim =>
  (fromDictBoolField d.shows_product_on_face).bind fun spf =>
  (fromDictIntField d.slide_index).bind fun si =>
  (fromDictIntField d.retry_count).bind fun rc =>
  (fromDictIntField d.version).bind fun v =>
  some ⟨d.task_id, d.job_id, d.job_type, d.dependency_group,
        d.dependency_type, d.depends_on_task_id, d.slide_type, si,
        d.scene_description, d.text_content, d.text_position_hint,
        d.reference_image_path, d.product_image_path,
        d.persona_reference_path, hp, ts, vs, pif, cim,
        d.product_description, spf, d.transformation_role,
        d.transformation_problem, d.layout_type, sc, v, d.output_path,
        d.output_dir, rc, d.last_error, d.created_at, d.started_at,
        d.completed_at⟩

theorem pyLower_true_false (b : Bool) :
    (pyLower (if b then "true" else "false") == "true") = b := by
  cases b <;> decide

/-- C10: for every `ImageTask` (all fields present and well-typed per the
dataclass, dict fields JSON values), the store serialization round-trips:
`from_dict (to_dict t) = t`, with booleans, nested dicts and integers
restored exactly. -/
theorem imageTask_from_dict_to_dict (t : ImageTask) :
    ImageTask.from_dict (ImageTask.to_dict t) = some t := by
  obtain ⟨tid, jid, jt, dg, dt, dot, st, si, sd, tc, tph, rip, pip, prp, hp,
    ts, vs, pif, cim, pd, spf, tr, tp, lt, sc, v, op, od, rc, le, ca, sa,
    cmp⟩ := t
  cases hp <;> cases cim <;> cases spf <;> rfl

/-! ## Credential Pool (api_key_manager.py, class ApiKeyManager)

Redis counters become association lists keyed by `(key_id, model_type)`.
Time is an explicit natural-number Unix timestamp `now`; a Redis key with a
TTL is a `Counter` carrying its absolute expiry (a read at or past the expiry
sees the key as gone, i.e. the counter as 0).  `midnight` is the value of
`_get_midnight_pt_timestamp()` — the next fixed midnight-Pacific boundary —
passed as a parameter. -/

/-- A Redis counter value with optional absolute expiry
(`expiry = none` models TTL −1, no expiration). -/
structure Counter where
  value : Nat
  expiry : Option Nat
deriving Inhabited

/-- Association-list read. -/
def aget {α : Type} (l : List (String × α)) (k : String) : Option α :=
  match l.find? (fun p => p.1 == k) with
  | some p => some p.2
  | none => none

/-- Association-list write (replace or insert). -/
def aset {α : Type} (l : List (String × α)) (k : String) (v : α) :
    List (String × α) :=
  (k, v) :: l.filter (fun p => p.1 != k)

/-- Association-list delete (Redis `delete`). -/
def adel {α : Type} (l : List (String × α)) (k : String) : List (String × α) :=
  l.filter (fun p => p.1 != k)

/-- Counter key `"{key_id}:{model_type}"` (the `gemini:key:` prefix is
constant and dropped). -/
def ctrKey (kid mt : String) : String := kid ++ ":" ++ mt

/-- `int(self.redis.get(k) or 0)`: an absent or expired counter reads as 0. -/
def ctrGet (l : List (String × Counter)) (k : String) (now : Nat) : Nat :=
  match aget l k with
  | none => 0
  | some c =>
    match c.expiry with
    | none => c.value
    | some e => if now < e then c.value else 0

/-- Credential-pool state: the configured keys, the round-robin cursor
(`_last_key_index`, initially −1), the per-(key,model) RPM and daily
counters, and the set of `(key_id, model_type)` pairs whose
`free_tier` flag is `"true"` (permanently unusable). -/
structure CredState where
  keys : List String
  lastKeyIndex : Int
  rpm : List (String × Counter)
  daily : List (String × Counter)
  freeTier : List String
deriving Inhabited

/-- `_get_key_id`: first 8 characters of the key. -/
def keyId (key : String) : String := key.take 8

/-- `RATE_LIMITS[...]['rpm']` with `.get(model_type, RATE_LIMITS['image'])`
(config.py: TEXT_RPM = 900, IMAGE_RPM = 18). -/
def rpmLimit (mt : String) : Nat := if mt == "text" then 900 else 18

/-- `RATE_LIMITS[...]['daily']` (config.py: TEXT_DAILY = 9000,
IMAGE_DAILY = 240). -/
def dailyLimit (mt : String) : Nat := if mt == "text" then 9000 else 240

/-- The dictionary returned by `get_key_usage` (api_key_manager.py
lines 112-169). -/
structure KeyUsage where
  key_id : String
  rpm_used : Nat
  rpm_limit : Nat
  daily_used : Nat
  daily_limit : Nat
  is_available : Bool
  is_free_tier : Bool
deriving Inhabited

/-- `get_key_usage(key, model_type)` at time `now`. -/
def getKeyUsage (st : CredState) (key mt : String) (now : Nat) : KeyUsage :=
  let kid := keyId key
  if st.freeTier.contains (ctrKey kid mt) then
    ⟨kid, 0, 0, 0, 0, false, true⟩
  else
    let r := ctrGet st.rpm (ctrKey kid mt) now
    let d := ctrGet st.daily (ctrKey kid mt) now
    ⟨kid, r, rpmLimit mt, d, dailyLimit mt,
     decide (r < rpmLimit mt) && decide (d < dailyLimit mt), false⟩

/-- The index scanned at round-robin offset `i`:
`idx = (self._last_key_index + 1 + i) % len(self.keys)`. -/
def rrIndex (st : CredState) (i : Nat) : Nat :=
  ((st.lastKeyIndex + 1 + (i : Int)) % (st.keys.length : Int)).toNat

/-- `self.keys[idx]`. -/
def keyAt (st : CredState) (idx : Nat) : String := st.keys.getD idx ""

/-- The scan `for i in range(len(self.keys))` of `get_available_key`
(api_key_manager.py lines 189-204): skip free-tier keys, return the first
index whose usage `is_available`. -/
def scanKeys (st : CredState) (mt : String) (now : Nat) : List Nat → Option Nat
  | [] => none
  | i :: rest =>
    let usage := getKeyUsage st (keyAt st (rrIndex st i)) mt now
    if usage.is_free_tier then scanKeys st mt now rest
    else if usage.is_available then some (rrIndex st i)
    else scanKeys st mt now rest

/-- `get_available_key(model_type)` (api_key_manager.py lines 175-220):
returns the selected key and the state with the cursor advanced, or
`Except.error ()` for `raise ApiKeyExhaustedError`. -/
def getAvailableKey (st : CredState) (mt : String) (now : Nat) :
    Except Unit (String × CredState) :=
  match scanKeys st mt now (List.range st.keys.length) with
  | some idx => Except.ok (keyAt st idx, { st with lastKeyIndex := idx })
  | none => Except.error ()

/-- `record_usage(key, model_type)` at time `now` (lines 222-246):
increment the RPM counter and reset its 60-second TTL; increment the daily
counter, giving it an expiry at the `midnight` boundary only if it has none
(an absent or expired counter is recreated by `incr` at 1 with no TTL). -/
def recordUsage (st : CredState) (key mt : String) (now midnight : Nat) :
    CredState :=
  let k := ctrKey (keyId key) mt
  let rpm := aset st.rpm k ⟨ctrGet st.rpm k now + 1, some (now + 60)⟩
  let daily :=
    match aget st.daily k with
    | none => aset st.daily k ⟨1, some midnight⟩
    | some c =>
      match c.expiry with
      | none => aset st.daily k ⟨c.value + 1, some midnight⟩
      | some e =>
        if now < e then aset st.daily k ⟨c.value + 1, some e⟩
        else aset st.daily k ⟨1, some midnight⟩
  { st with rpm := rpm, daily := daily }

/-- `record_failure(key, model_type, is_rate_limit)` (lines 248-265): a
rate-limited failure forces the RPM counter to its limit for 60 seconds;
otherwise no state change. -/
def recordFailure (st : CredState) (key mt : String) (now : Nat)
    (is_rate_limit : Bool) : CredState :=
  if is_rate_limit then
    { st with
      rpm := aset st.rpm (ctrKey (keyId key) mt) ⟨rpmLimit mt, some (now + 60)⟩ }
  else st

/-- Modelled from the spec: `record_daily_exhaustion(key, model_type)` —
invoked by the scheduler daily-limit branch (queue_processor.py line 418)
but not defined in src/ (api_key_manager.py lacks it; only the caller is
present).  Per the spec, "a distinct daily-exhaustion signal marks the key
unusable until the next fixed daily reset boundary (not a rolling window)":
the daily counter for that key and capability is forced to its daily limit
with expiry at the fixed `midnight` boundary, mirroring how a rate-limited
failure forces the short-window counter to its limit. -/
def record_daily_exhaustion (st : CredState) (key mt : String)
    (midnight : Nat) : CredState :=
  { st with
    daily := aset st.daily (ctrKey (keyId key) mt)
      ⟨dailyLimit mt, some midnight⟩ }

/-! ## Scheduler failure classification (queue_processor.py `_generate_image`,
lines 396-428) -/

/-- The action the per-attempt exception handler takes for one failed
generation call. -/
inductive GenKeyAction where
  | markFreeTier : GenKeyAction
  | markDailyExhausted : GenKeyAction
  | markRpmExhausted : GenKeyAction
  | reraise : GenKeyAction
deriving DecidableEq

/-- `error_str = str(e).lower()` and the chain of substring tests of
queue_processor.py lines 397-424, including the daily-vs-RPM split. -/
def classifyGenError (es : String) : GenKeyAction :=
  let e := pyLower es
  if strIn "free_tier" e || strIn "limit: 0" e then GenKeyAction.markFreeTier
  else if strIn "429" e || strIn "resource_exhausted" e || strIn "rate" e
          || strIn "quota" e then
    if strIn "daily" e || strIn "per day" e || strIn "quota" e
        || strIn "generatecontent" e then
      GenKeyAction.markDailyExhausted
    else GenKeyAction.markRpmExhausted
  else GenKeyAction.reraise

/-- Modelled from the spec (the failure path of `_record_api_usage`, defined
in gemini_service_v2.py which is absent from src/; the spec's
"record_failure(key, capability, {rate_limited})"): a failed request is
recorded through the pool's `record_failure`. -/
def recordApiUsageFailure (st : CredState) (key mt : String) (now : Nat)
    (is_rate_limit : Bool) : CredState :=
  recordFailure st key mt now is_rate_limit

/-- The credential-pool update performed by `_generate_image`'s exception
handler for one failed attempt with capability "image"
(queue_processor.py lines 396-428). -/
def applyGenFailure (st : CredState) (key es : String) (now midnight : Nat) :
    CredState :=
  match classifyGenError es with
  | GenKeyAction.markFreeTier =>
    let st := recordApiUsageFailure st key "image" now true
    { st with freeTier := ctrKey (keyId key) "image" :: st.freeTier }
  | GenKeyAction.markDailyExhausted =>
    record_daily_exhaustion st key "image" midnight
  | GenKeyAction.markRpmExhausted =>
    recordApiUsageFailure st key "image" now true
  | GenKeyAction.reraise =>
    recordApiUsageFailure st key "image" now false

/-! ### Round-robin scan lemmas -/

/-- A key position passes the scan: not free tier and within both limits. -/
def keyUsable (st : CredState) (mt : String) (now : Nat) (idx : Nat) : Bool :=
  let u := getKeyUsage st (keyAt st idx) mt now
  if u.is_free_tier then false else u.is_available

theorem scanKeys_cons (st : CredState) (mt : String) (now : Nat)
    (i : Nat) (rest : List Nat) :
    scanKeys st mt now (i :: rest) =
      if keyUsable st mt now (rrIndex st i) then some (rrIndex st i)
      else scanKeys st mt now rest := by
  rw [scanKeys]
  generalize hu : getKeyUsage st (keyAt st (rrIndex st i)) mt now = u
  obtain ⟨_, _, _, _, _, a, f⟩ := u
  cases f <;> cases a <;> simp [keyUsable, hu]

/-- Soundness of the scan over an arbitrary offset list. -/
theorem scanKeys_some (st : CredState) (mt : String) (now : Nat)
    (l : List Nat) (idx : Nat) (h : scanKeys st mt now l = some idx) :
    keyUsable st mt now idx = true ∧
    ∃ k, ∃ hk : k < l.length, idx = rrIndex st (l.get ⟨k, hk⟩) ∧
      ∀ m, (hm : m < l.length) → m < k →
        keyUsable st mt now (rrIndex st (l.get ⟨m, hm⟩)) = false := by
  induction l with
  | nil => simp [scanKeys] at h
  | cons i rest ih =>
    rw [scanKeys_cons] at h
    by_cases hu : keyUsable st mt now (rrIndex st i) = true
    · rw [if_pos hu] at h
      obtain rfl : rrIndex st i = idx := by simpa using h
      refine ⟨hu, 0, by simp, rfl, ?_⟩
      intro m hm hmk; omega
    · rw [if_neg hu] at h
      obtain ⟨husable, k, hk, hidx, hfirst⟩ := ih h
      refine ⟨husable, k + 1, by simpa using Nat.succ_lt_succ hk, by simpa using hidx, ?_⟩
      intro m hm hmk
      match m with
      | 0 => simpa using (Bool.eq_false_iff.mpr hu)
      | m' + 1 =>
        have hm' : m' < rest.length := by simpa using hm
        have := hfirst m' hm' (by omega)
        simpa using this

/-- Completeness side: the scan fails exactly when no offset is usable. -/
theorem scanKeys_none (st : CredState) (mt : String) (now : Nat)
    (l : List Nat) :
    scanKeys st mt now l = none ↔
      ∀ k, (hk : k < l.length) →
        keyUsable st mt now (rrIndex st (l.get ⟨k, hk⟩)) = false := by
  induction l with
  | nil => simp [scanKeys]
  | cons i rest ih =>
    rw [scanKeys_cons]
    by_cases hu : keyUsable st mt now (rrIndex st i) = true
    · simp only [if_pos hu]
      constructor
      · intro h; cases h
      · intro h
        have := h 0 (by simp)
        simp [hu] at this
    · simp only [if_neg hu]
      rw [ih]
      constructor
      · intro h k hk
        match k with
        | 0 => simpa using Bool.eq_false_iff.mpr hu
        | k' + 1 =>
          have hk' : k' < rest.length := by simpa using hk
          simpa using h k' hk'
      · intro h k hk
        have := h (k + 1) (by simpa using Nat.succ_lt_succ hk)
        simpa using this

theorem aget_aset_self {α : Type} (l : List (String × α)) (k : String)
    (v : α) : aget (aset l k v) k = some v := by
  simp [aget, aset, List.find?]

theorem aget_aset_ne {α : Type} (l : List (String × α)) (k k' : String)
    (v : α) (h : k' ≠ k) : aget (aset l k v) k' = aget l k' := by
  have hk : (k == k') = false := by simpa using fun e => h e.symm
  unfold aget aset
  rw [List.find?]
  simp only [hk]
  induction l with
  | nil => rfl
  | cons p rest ih =>
    by_cases hp : p.1 = k
    · have h1 : (p.1 != k) = false := by simp [hp]
      have h2 : (p.1 == k') = false := by
        simpa using fun e => h (by rw [← e, hp])
      simp only [List.filter, h1]
      rw [List.find?]
      simp only [h2]
      simpa using ih
    · have h1 : (p.1 != k) = true := by simpa using hp
      simp only [List.filter, h1]
      rw [List.find?, List.find?]
      cases hq : (p.1 == k') with
      | true => rfl
      | false => simpa using ih

/-- `keyUsable` unpacked: the position is usable exactly when the key is not
free-tier and both counters are strictly below their limits. -/
theorem keyUsable_iff (st : CredState) (mt : String) (now : Nat) (idx : Nat) :
    keyUsable st mt now idx = true ↔
      ctrKey (keyId (keyAt st idx)) mt ∉ st.freeTier ∧
      ctrGet st.rpm (ctrKey (keyId (keyAt st idx)) mt) now < rpmLimit mt ∧
      ctrGet st.daily (ctrKey (keyId (keyAt st idx)) mt) now < dailyLimit mt := by
  unfold keyUsable getKeyUsage
  by_cases hf : ctrKey (keyId (keyAt st idx)) mt ∈ st.freeTier
  · simp [hf]
  · simp [hf]

/-- C9: `acquire(capability)` (`get_available_key`) never returns a
credential whose short-window (RPM) count is at or above its limit or whose
daily count is at or above its daily limit; it scans round-robin from just
after the last-selected index, skipping free-tier (permanently unusable) and
quota-exceeded keys, returns the first usable key, and raises
`AllKeysExhausted` exactly when no key is usable. -/
theorem getAvailableKey_spec (st : CredState) (mt : String) (now : Nat) :
    (∀ key st', getAvailableKey st mt now = Except.ok (key, st') →
      ctrKey (keyId key) mt ∉ st.freeTier ∧
      ctrGet st.rpm (ctrKey (keyId key) mt) now < rpmLimit mt ∧
      ctrGet st.daily (ctrKey (keyId key) mt) now < dailyLimit mt ∧
      ∃ j, j < st.keys.length ∧ key = keyAt st (rrIndex st j) ∧
        st' = { st with lastKeyIndex := (rrIndex st j : Int) } ∧
        ∀ m, m < j → keyUsable st mt now (rrIndex st m) = false) ∧
    (getAvailableKey st mt now = Except.error () ↔
      ∀ j, j < st.keys.length → keyUsable st mt now (rrIndex st j) = false) := by
  constructor
  · intro key st' h
    unfold getAvailableKey at h
    cases hscan : scanKeys st mt now (List.range st.keys.length) with
    | none => rw [hscan] at h; cases h
    | some idx =>
      rw [hscan] at h
      obtain ⟨hkey, hst'⟩ : keyAt st idx = key ∧
          { st with lastKeyIndex := (idx : Int) } = st' := by
        constructor <;> cases h <;> rfl
      obtain ⟨husable, k, hk, hidx, hfirst⟩ := scanKeys_some st mt now _ idx hscan
      have hklen : (List.range st.keys.length).length = st.keys.length := by simp
      have hget : (List.range st.keys.length).get ⟨k, hk⟩ = k := by
        simp [List.get_range]
      rw [hget] at hidx
      subst hidx
      subst hkey
      obtain ⟨hfree, hrpm, hdaily⟩ := (keyUsable_iff st mt now _).mp husable
      refine ⟨hfree, hrpm, hdaily, k, by simpa using hk, rfl, hst'.symm, ?_⟩
      intro m hm
      have hmlen : m < (List.range st.keys.length).length := by
        simp only [hklen] at hk ⊢; omega
      have := hfirst m hmlen hm
      simpa [List.get_range] using this
  · constructor
    · intro h j hj
      have hnone : scanKeys st mt now (List.range st.keys.length) = none := by
        unfold getAvailableKey at h
        cases hscan : scanKeys st mt now (List.range st.keys.length) with
        | none => rfl
        | some idx => rw [hscan] at h; cases h
      have hall := (scanKeys_none st mt now (List.range st.keys.length)).mp hnone
      have hjlen : j < (List.range st.keys.length).length := by simpa using hj
      have := hall j hjlen
      simpa [List.get_range] using this
    · intro h
      unfold getAvailableKey
      cases hscan : scanKeys st mt now (List.range st.keys.length) with
      | none => rfl
      | some idx =>
        exfalso
        obtain ⟨husable, k, hk, hidx, _⟩ := scanKeys_some st mt now _ idx hscan
        have hget : (List.range st.keys.length).get ⟨k, hk⟩ = k := by
          simp [List.get_range]
        rw [hget] at hidx
        have hklen : k < st.keys.length := by simpa using hk
        have := h k hklen
        rw [← hidx] at this
        rw [this] at husable
        cases husable

/-- A two-key pool with the first key's RPM counter at its limit. -/
def poolRpmSpent : CredState :=
  ⟨["AAAAAAAAkeyone", "BBBBBBBBkeytwo"], -1,
   [(ctrKey "AAAAAAAA" "image", ⟨18, some 60⟩)], [], []⟩

theorem getAvailableKey_spec_witness :
    ctrGet poolRpmSpent.rpm (ctrKey (keyId "BBBBBBBBkeytwo") "image") 0
        < rpmLimit "image" ∧
    ctrGet poolRpmSpent.daily (ctrKey (keyId "BBBBBBBBkeytwo") "image") 0
        < dailyLimit "image" :=
  ⟨((getAvailableKey_spec poolRpmSpent "image" 0).1 "BBBBBBBBkeytwo"
      { poolRpmSpent with lastKeyIndex := 1 } rfl).2.1,
   ((getAvailableKey_spec poolRpmSpent "image" 0).1 "BBBBBBBBkeytwo"
      { poolRpmSpent with lastKeyIndex := 1 } rfl).2.2.1⟩

/-! ### C1: daily exhaustion until the fixed boundary -/

/-- A fresh two-credential pool. -/
def poolTwo : CredState :=
  ⟨["AAAAAAAAone", "BBBBBBBBtwo"], -1, [], [], []⟩

/-- Both credentials after reporting daily exhaustion for capability "image"
with the daily boundary at time 100. -/
def poolTwoExhausted : CredState :=
  record_daily_exhaustion
    (record_daily_exhaustion poolTwo "AAAAAAAAone" "image" 100)
    "BBBBBBBBtwo" "image" 100

/-- C1: when an error classifies as daily exhaustion, the scheduler's
daily-limit branch marks the key through the credential-pool operation
`record_daily_exhaustion`; the marked key is unusable for that capability at
any time before the fixed boundary (`acquire` never returns it), and at any
time at or past the boundary its daily counter reads zero again (a fixed
reset boundary, not a rolling window).  Concretely, with both credentials of
`poolTwo` daily-exhausted until boundary 100, `acquire "image"` raises
`AllKeysExhausted` at time 50 and succeeds again at time 100. -/
theorem daily_exhaustion_until_boundary
    (st : CredState) (key es : String) (now now2 midnight : Nat)
    (hd : classifyGenError es = GenKeyAction.markDailyExhausted)
    (hnow : now < midnight) (hafter : midnight ≤ now2) :
    applyGenFailure st key es now midnight
        = record_daily_exhaustion st key "image" midnight ∧
    (getKeyUsage (record_daily_exhaustion st key "image" midnight)
        key "image" now).is_available = false ∧
    (∀ k st', getAvailableKey (record_daily_exhaustion st key "image" midnight)
        "image" now = Except.ok (k, st') → keyId k ≠ keyId key) ∧
    ctrGet (record_daily_exhaustion st key "image" midnight).daily
        (ctrKey (keyId key) "image") now2 = 0 ∧
    getAvailableKey poolTwoExhausted "image" 50 = Except.error () ∧
    getAvailableKey poolTwoExhausted "image" 100
        = Except.ok ("AAAAAAAAone", { poolTwoExhausted with lastKeyIndex := 0 }) := by
  have hm : ∀ t : Nat, ctrGet (record_daily_exhaustion st key "image" midnight).daily
      (ctrKey (keyId key) "image") t
      = if t < midnight then dailyLimit "image" else 0 := by
    intro t
    unfold record_daily_exhaustion ctrGet
    rw [aget_aset_self]
  refine ⟨?_, ?_, ?_, ?_, ?_, ?_⟩
  · unfold applyGenFailure
    rw [hd]
  · unfold getKeyUsage
    by_cases hf : ctrKey (keyId key) "image"
        ∈ (record_daily_exhaustion st key "image" midnight).freeTier
    · simp [hf]
    · have hd' := hm now
      rw [if_pos hnow] at hd'
      simp [hf, hd']
  · intro k st' hok
    intro heq
    have hspec := ((getAvailableKey_spec
        (record_daily_exhaustion st key "image" midnight) "image" now).1 k st' hok).2.2.1
    rw [heq] at hspec
    have hd' := hm now
    rw [if_pos hnow] at hd'
    rw [hd'] at hspec
    exact absurd hspec (lt_irrefl _)
  · have hd' := hm now2
    rw [if_neg (by omega)] at hd'
    exact hd'
  · rfl
  · rfl

theorem daily_exhaustion_until_boundary_witness :
    (getKeyUsage (record_daily_exhaustion poolTwo "AAAAAAAAone" "image" 100)
        "AAAAAAAAone" "image" 50).is_available = false ∧
    ctrGet (record_daily_exhaustion poolTwo "AAAAAAAAone" "image" 100).daily
        (ctrKey (keyId "AAAAAAAAone") "image") 100 = 0 :=
  ⟨(daily_exhaustion_until_boundary poolTwo "AAAAAAAAone"
      "429 RESOURCE_EXHAUSTED: quota exceeded per day for GenerateContent"
      50 100 100 (by decide) (by decide) (by decide)).2.1,
   (daily_exhaustion_until_boundary poolTwo "AAAAAAAAone"
      "429 RESOURCE_EXHAUSTED: quota exceeded per day for GenerateContent"
      50 100 100 (by decide) (by decide) (by decide)).2.2.2.1⟩

/-! ## Batch-scheduler circuit breaker (queue_processor.py, class
BatchProcessor)

Config values (config.py): CIRCUIT_BREAKER_THRESHOLD = 3,
CIRCUIT_BREAKER_RESET_TIME = 300, RATE_LIMIT_PAUSE_DEFAULT = 65. -/

def CIRCUIT_BREAKER_THRESHOLD : Nat := 3
def CIRCUIT_BREAKER_RESET_TIME : Nat := 300
def RATE_LIMIT_PAUSE_DEFAULT : Nat := 65

/-- The scheduler state the circuit breaker and pause logic touch
(`_consecutive_all_key_failures`, `_circuit_open_until`, `_paused`,
`_pause_until`). -/
structure CBState where
  consecutiveAllKeyFailures : Nat
  circuitOpenUntil : Nat
  paused : Bool
  pauseUntil : Nat
deriving Inhabited

/-- Scheduler state at construction (queue_processor.py lines 115-135). -/
def cbInit : CBState := ⟨0, 0, false, 0⟩

/-- `_is_circuit_open` (lines 564-568). -/
def isCircuitOpen (cb : CBState) (now : Nat) : Bool := now < cb.circuitOpenUntil

/-- `_record_all_keys_exhausted` (lines 570-580): increment the consecutive
counter; at or past the threshold, open the circuit for the reset time. -/
def recordAllKeysExhausted (cb : CBState) (now : Nat) : CBState :=
  let cb := { cb with
    consecutiveAllKeyFailures := cb.consecutiveAllKeyFailures + 1 }
  if cb.consecutiveAllKeyFailures ≥ CIRCUIT_BREAKER_THRESHOLD then
    { cb with circuitOpenUntil := now + CIRCUIT_BREAKER_RESET_TIME }
  else cb

/-- `_record_generation_success` (lines 582-586): reset the counter to zero.
Note it does NOT touch `_circuit_open_until`. -/
def recordGenerationSuccess (cb : CBState) : CBState :=
  { cb with consecutiveAllKeyFailures := 0 }

/-- The outcome of one task in `_process_batch` as far as the circuit
breaker is concerned. -/
inductive TaskOutcome where
  | success : TaskOutcome
  | allKeysExhausted : TaskOutcome
  | otherFailure : TaskOutcome

/-- The per-task handler effects of `_process_batch` (lines 273-324) on the
breaker/pause state: a success calls `_record_generation_success`; an
`ApiKeyExhaustedError` sets the pause and calls
`_record_all_keys_exhausted` (its message contains "All" and "exhausted");
other failures leave this state alone. -/
def applyOutcome (cb : CBState) (now : Nat) : TaskOutcome → CBState
  | TaskOutcome.success => recordGenerationSuccess cb
  | TaskOutcome.allKeysExhausted =>
    recordAllKeysExhausted
      { cb with paused := true,
                pauseUntil := now + RATE_LIMIT_PAUSE_DEFAULT + 5 } now
  | TaskOutcome.otherFailure => cb

/-- `_process_batch` folded over its task outcomes (a single batch). -/
def processBatchCB (cb : CBState) (now : Nat) (outcomes : List TaskOutcome) :
    CBState :=
  outcomes.foldl (fun c o => applyOutcome c now o) cb

/-- One gate pass of `_run_loop` (lines 179-201): whether this iteration
reaches `get_batch` (independently of queue contents), and the state after
the gate. -/
def loopPulls (cb : CBState) (now : Nat) : Bool × CBState :=
  if isCircuitOpen cb now then (false, cb)
  else if cb.paused && decide (now < cb.pauseUntil) then (false, cb)
  else (true, { cb with paused := false })

/-- C3 counterexample: the claim says the exhaustion count increments once
per batch, so a single batch could raise it by at most one and could not
open the circuit from a clean state.  But `_record_all_keys_exhausted` is
called per task: one batch of 3 all-keys-exhausted tasks takes the counter
from 0 to 3 and opens the circuit immediately. -/
theorem circuitBreaker_per_task_counterexample :
    (processBatchCB cbInit 0 [TaskOutcome.allKeysExhausted,
        TaskOutcome.allKeysExhausted,
        TaskOutcome.allKeysExhausted]).consecutiveAllKeyFailures = 3 ∧
    isCircuitOpen (processBatchCB cbInit 0 [TaskOutcome.allKeysExhausted,
        TaskOutcome.allKeysExhausted,
        TaskOutcome.allKeysExhausted]) 1 = true := by
  exact ⟨rfl, rfl⟩

/-- C3 (amended): the scheduler counts consecutive all-keys-exhausted task
outcomes (one increment per exhausted task, not per batch); when the count
reaches the threshold 3 the circuit opens until `now + 300`; while the
circuit is open the loop performs no pull; any successful generation resets
the count to zero but does not clear an already-set cooldown deadline; once
the deadline has passed (and no pause is active) pulling resumes. -/
theorem circuitBreaker_behaviour (cb : CBState) (now t : Nat) :
    (recordAllKeysExhausted cb now).consecutiveAllKeyFailures
        = cb.consecutiveAllKeyFailures + 1 ∧
    (cb.consecutiveAllKeyFailures + 1 ≥ CIRCUIT_BREAKER_THRESHOLD →
      (recordAllKeysExhausted cb now).circuitOpenUntil
        = now + CIRCUIT_BREAKER_RESET_TIME) ∧
    (cb.consecutiveAllKeyFailures + 1 < CIRCUIT_BREAKER_THRESHOLD →
      (recordAllKeysExhausted cb now).circuitOpenUntil = cb.circuitOpenUntil) ∧
    (t < cb.circuitOpenUntil → loopPulls cb t = (false, cb)) ∧
    (recordGenerationSuccess cb).consecutiveAllKeyFailures = 0 ∧
    (recordGenerationSuccess cb).circuitOpenUntil = cb.circuitOpenUntil ∧
    (cb.circuitOpenUntil ≤ t → cb.paused = false →
      (loopPulls cb t).1 = true) := by
  refine ⟨?_, ?_, ?_, ?_, rfl, rfl, ?_⟩
  · unfold recordAllKeysExhausted
    by_cases h : cb.consecutiveAllKeyFailures + 1 ≥ CIRCUIT_BREAKER_THRESHOLD
    · simp [h]
    · simp [h]
  · intro h
    unfold recordAllKeysExhausted
    simp [h]
  · intro h
    unfold recordAllKeysExhausted
    have h' : ¬ (cb.consecutiveAllKeyFailures + 1 ≥ CIRCUIT_BREAKER_THRESHOLD) := by omega
    simp [h']
  · intro h
    unfold loopPulls isCircuitOpen
    simp [h]
  · intro hle hp
    unfold loopPulls isCircuitOpen
    have h1 : ¬ (t < cb.circuitOpenUntil) := by omega
    simp [h1, hp]

theorem circuitBreaker_behaviour_witness :
    (recordAllKeysExhausted ⟨2, 0, false, 0⟩ 10).circuitOpenUntil = 310 ∧
    (loopPulls ⟨3, 310, false, 0⟩ 100).1 = false ∧
    (loopPulls ⟨0, 310, false, 0⟩ 310).1 = true :=
  ⟨(circuitBreaker_behaviour ⟨2, 0, false, 0⟩ 10 0).2.1 (by decide),
   by
    have := (circuitBreaker_behaviour ⟨3, 310, false, 0⟩ 0 100).2.2.2.1 (by decide)
    rw [this],
   (circuitBreaker_behaviour ⟨0, 310, false, 0⟩ 0 310).2.2.2.2.2.2
     (by decide) rfl⟩

/-! ## Task Store (image_queue.py, class GlobalImageQueue)

Redis structures: the two sorted sets (pending, retry) are lists of
`(task_id, score)` kept in ascending score order — all scores come from
`time.time()`, modelled by the state's strictly increasing logical `clock`,
so `zadd` appends at the tail; the three plain sets are `List String`; the
task-data hashes are an association list of `ImageTask` (storing the
structure directly is faithful because `from_dict (to_dict t) = t`, proved
above); `_update_job_status` writes only the job-status hash, which no
operation here ever reads back, and is therefore not part of the state. -/

def MAX_RETRIES : Int := 3   -- QueueConfig.MAX_RETRIES (config.py line 43)

/-- A dependency-ledger record (`image_queue:dep:*` hash): the producer's
task id, the `completed` flag (stored as the string "true"/"false"),
and the producer's result path. -/
structure DepRecord where
  first_task_id : String
  completed : Bool
  result_path : String
deriving Inhabited

structure QueueState where
  pending : List (String × Nat)
  processing : List String
  retry : List (String × Nat)
  completed : List String
  failed : List String
  taskData : List (String × ImageTask)
  deps : List (String × DepRecord)
  jobTasks : List (String × List String)
  results : List (String × String)
  clock : Nat

/-- The empty queue. -/
def emptyQueue : QueueState := ⟨[], [], [], [], [], [], [], [], [], 0⟩

/-- Sorted-set membership. -/
def zmem (z : List (String × Nat)) (id : String) : Bool :=
  z.any (fun p => p.1 == id)

/-- `zrem`. -/
def zrem (z : List (String × Nat)) (id : String) : List (String × Nat) :=
  z.filter (fun p => p.1 != id)

/-- `zadd` with a score larger than every score already present (true of
every call site, because scores are the strictly increasing clock):
append at the tail, replacing any previous entry for the member. -/
def zadd (z : List (String × Nat)) (id : String) (score : Nat) :
    List (String × Nat) :=
  zrem z id ++ [(id, score)]

/-- `zrange(key, 0, stop)` with Redis negative-index semantics. -/
def zrangeFromZero (z : List (String × Nat)) (stop : Int) : List String :=
  let l := z.map Prod.fst
  if stop < 0 then l.take ((l.length : Int) + stop + 1).toNat
  else l.take (stop + 1).toNat

/-- Set membership (`sismember`). -/
def smem (s : List String) (id : String) : Bool := s.contains id

/-- `sadd`. -/
def sadd (s : List String) (id : String) : List String :=
  if s.contains id then s else s ++ [id]

/-- `srem`. -/
def srem (s : List String) (id : String) : List String :=
  s.filter (fun x => x != id)

/-- `_get_task` (lines 514-520). -/
def getTask (st : QueueState) (id : String) : Option ImageTask :=
  aget st.taskData id

/-- The set of task ids registered for a job (`image_queue:job:*`). -/
def jobTaskIds (st : QueueState) (job_id : String) : List String :=
  (aget st.jobTasks job_id).getD []

/-- `submit(task)` (lines 183-224): stamp `created_at`, store the task data,
add to pending with the clock as FIFO score, register job membership, and
create the dependency record for a `persona_first` producer.
(`_update_job_status` writes only the unread job-status hash.) -/
def submit (st : QueueState) (task : ImageTask) : QueueState :=
  let task := { task with created_at := toString st.clock }
  let score := st.clock
  let st1 := { st with taskData := aset st.taskData task.task_id task }
  let st2 := { st1 with pending := zadd st1.pending task.task_id score }
  let st3 := { st2 with
    jobTasks := aset st2.jobTasks task.job_id
      (sadd (jobTaskIds st2 task.job_id) task.task_id) }
  let st4 :=
    if task.dependency_type == "persona_first" then
      let rec0 : DepRecord := ⟨task.task_id, false, ""⟩
      { st3 with deps := aset st3.deps task.dependency_group rec0 }
    else st3
  { st4 with clock := st4.clock + 1 }

/-- `_can_process_task(task, skipped_deps)` (lines 276-300): a
`persona_dependent` task is processable only when its group's dependency
record exists and is completed, in which case the task's
`persona_reference_path` is set to the recorded result (the mutation is
returned; `skipped_deps` is used only for a log line and is dropped). -/
def canProcessTask (st : QueueState) (task : ImageTask) : Option ImageTask :=
  if task.dependency_type == "persona_dependent" then
    match aget st.deps task.dependency_group with
    | none => none
    | some dep =>
      if dep.completed then
        some { task with persona_reference_path := dep.result_path }
      else none
  else some task

/-- The body of the two `for task_id in ...` loops of `get_batch`
(lines 242-252 and 259-269): walk the snapshot of ids, stopping at `limit`
accepted tasks; an accepted task is moved from its source queue into
processing, gets `started_at` stamped and saved, and is appended to the
result. -/
def processQueueIds (fromRetry : Bool) (limit : Nat) :
    List String → QueueState → List ImageTask → QueueState × List ImageTask
  | [], st, acc => (st, acc)
  | id :: rest, st, acc =>
    if acc.length ≥ limit then (st, acc)
    else
      match getTask st id with
      | none => processQueueIds fromRetry limit rest st acc
      | some task =>
        match canProcessTask st task with
        | none => processQueueIds fromRetry limit rest st acc
        | some task1 =>
          let task2 := { task1 with started_at := toString st.clock }
          let st' := { st with
            pending := if fromRetry then st.pending else zrem st.pending id,
            retry := if fromRetry then zrem st.retry id else st.retry,
            processing := sadd st.processing id,
            taskData := aset st.taskData id task2 }
          processQueueIds fromRetry limit rest st' (acc ++ [task2])

/-- `get_batch(limit)` (lines 226-274): drain the retry queue first
(`zrange(RETRY, 0, limit-1)`), then fill from pending
(`zrange(PENDING, 0, remaining*2)`, over-fetching for skipped
dependencies). -/
def getBatch (st : QueueState) (limit : Nat) : QueueState × List ImageTask :=
  let retryIds := zrangeFromZero st.retry ((limit : Int) - 1)
  let (st1, tasks1) := processQueueIds true limit retryIds st []
  let remaining := limit - tasks1.length
  let (st2, tasks2) :=
    if remaining > 0 then
      let pendingIds := zrangeFromZero st1.pending ((remaining : Int) * 2)
      processQueueIds false limit pendingIds st1 tasks1
    else (st1, tasks1)
  ({ st2 with clock := st2.clock + 1 }, tasks2)

/-- `mark_complete(task_id, result_path)` (lines 302-341). -/
def markComplete (st : QueueState) (task_id result_path : String) :
    QueueState :=
  match getTask st task_id with
  | none => st
  | some task =>
    let task := { task with
      completed_at := toString st.clock, output_path := result_path }
    let st1 := { st with taskData := aset st.taskData task_id task }
    let st2 := { st1 with
      processing := srem st1.processing task_id,
      completed := sadd st1.completed task_id }
    let st3 := { st2 with results := aset st2.results task_id result_path }
    let st4 :=
      if task.dependency_type == "persona_first" then
        let newDep : DepRecord :=
          match aget st3.deps task.dependency_group with
          | none => ⟨"", true, result_path⟩
          | some dep =>
            { dep with completed := true, result_path := result_path }
        { st3 with deps := aset st3.deps task.dependency_group newDep }
      else st3
    { st4 with clock := st4.clock + 1 }

/-- The loop body of `_fail_dependent_tasks` (lines 570-578 for pending,
582-589 for retry): a task of the group with
`dependency_type == "persona_dependent"` moves from its queue into failed,
with the error recorded. -/
def cascadeStep (group err : String) (fromPending : Bool)
    (s : QueueState) (id : String) : QueueState :=
  match getTask s id with
  | none => s
  | some task =>
    if task.dependency_group == group
        && task.dependency_type == "persona_dependent" then
      if fromPending then
        { s with
          pending := zrem s.pending id,
          failed := sadd s.failed id,
          taskData := aset s.taskData id { task with last_error := err } }
      else
        { s with
          retry := zrem s.retry id,
          failed := sadd s.failed id,
          taskData := aset s.taskData id { task with last_error := err } }
    else s

/-- `_fail_dependent_tasks(dependency_group, error)` (lines 557-599): scan a
snapshot of pending, then of retry (the trailing `_update_job_status`
touches only the unread status hash). -/
def failDependentTasks (st : QueueState) (group err : String) : QueueState :=
  let st1 := (zrangeFromZero st.pending (-1)).foldl
    (cascadeStep group err true) st
  (zrangeFromZero st1.retry (-1)).foldl (cascadeStep group err false) st1

/-- `mark_failed(task_id, error, is_rate_limit, permanent)` (lines 343-384):
drop from processing; bump `retry_count` unless rate-limited or permanent;
then either permanent failure (with producer cascade) or re-enqueue to retry
with a fresh FIFO score. -/
def markFailed (st : QueueState) (task_id err : String)
    (is_rate_limit : Bool) (permanent : Bool) : QueueState :=
  match getTask st task_id with
  | none => st
  | some task =>
    let st1 := { st with processing := srem st.processing task_id }
    let task :=
      if !is_rate_limit && !permanent then
        { task with retry_count := task.retry_count + 1 }
      else task
    let task := { task with last_error := err }
    let st2 := { st1 with taskData := aset st1.taskData task_id task }
    let st3 :=
      if permanent || task.retry_count ≥ MAX_RETRIES then
        let s := { st2 with failed := sadd st2.failed task_id }
        if task.dependency_type == "persona_first" then
          failDependentTasks s task.dependency_group
            ("Dependency " ++ task_id ++ " failed: " ++ err)
        else s
      else
        { st2 with retry := zadd st2.retry task_id st2.clock }
    { st3 with clock := st3.clock + 1 }

/-- The loop body of `cancel_job` (lines 470-485): remove the task from
pending, else from retry (counting cancellations), else count it as still
processing. -/
def cancelStep (acc : QueueState × Nat × Nat) (id : String) :
    QueueState × Nat × Nat :=
  let (s, c, p) := acc
  if zmem s.pending id then
    ({ s with pending := zrem s.pending id }, c + 1, p)
  else if zmem s.retry id then
    ({ s with retry := zrem s.retry id }, c + 1, p)
  else if smem s.processing id then (s, c, p + 1)
  else (s, c, p)

/-- `cancel_job(job_id)` (lines 457-489).  Returns
`(state, cancelled, still_processing)`. -/
def cancelJob (st : QueueState) (job_id : String) :
    QueueState × Nat × Nat :=
  (jobTaskIds st job_id).foldl cancelStep (st, 0, 0)

/-! ## Reap / cleanup (queue_processor.py `_cleanup_all_queues`,
`_cleanup_queue_by_criteria`, `_remove_task_completely`, lines 474-562)

The filesystem is a parameter `fs : String → Bool` (`os.path.exists`).
Staleness thresholds are expressed in seconds
(STALE_PENDING_HOURS = 2.0 → 7200 s, STALE_RETRY_HOURS = 1.0 → 3600 s,
STALE_PROCESSING_HOURS = 0.5 → 1800 s; the source compares
`age_seconds / 3600 > hours`, which is equivalent to
`age_seconds > hours * 3600`). -/

inductive QKind where
  | qpending : QKind
  | qretry : QKind
  | qprocessing : QKind

/-- The snapshot of ids taken at the top of `_cleanup_queue_by_criteria`
(`zrange(key, 0, -1)` or `smembers`). -/
def queueIdsOf (st : QueueState) : QKind → List String
  | QKind.qpending => zrangeFromZero st.pending (-1)
  | QKind.qretry => zrangeFromZero st.retry (-1)
  | QKind.qprocessing => st.processing

/-- `_remove_from_queue` (lines 550-555). -/
def removeFromQueue (st : QueueState) (q : QKind) (id : String) :
    QueueState :=
  match q with
  | QKind.qpending => { st with pending := zrem st.pending id }
  | QKind.qretry => { st with retry := zrem st.retry id }
  | QKind.qprocessing => { st with processing := srem st.processing id }

/-- Membership in one of the three cleanable queues. -/
def memQ (st : QueueState) : QKind → String → Bool
  | QKind.qpending, id => zmem st.pending id
  | QKind.qretry, id => zmem st.retry id
  | QKind.qprocessing, id => smem st.processing id

/-- Per-state staleness threshold in seconds. -/
def staleSeconds : QKind → Nat
  | QKind.qpending => 7200
  | QKind.qretry => 3600
  | QKind.qprocessing => 1800

/-- `_get_task_age_hours` (lines 535-548), in seconds: parse the stored
timestamp, `none` on a parse failure (`ValueError → None`); a creation time
in the future yields age 0 (in Python a negative age, which likewise never
exceeds a positive threshold). -/
def getTaskAgeSeconds (now : Nat) (created_at : String) : Option Nat :=
  match parseDigits created_at.data with
  | none => none
  | some t => some (now - t)

/-- `_remove_task_completely` (lines 557-562): remove from the queue,
delete the task data, and add to the failed set. -/
def removeTaskCompletely (st : QueueState) (q : QKind) (id : String) :
    QueueState :=
  let st1 := removeFromQueue st q id
  { st1 with taskData := adel st1.taskData id,
             failed := sadd st1.failed id }

/-- The loop body of `_cleanup_queue_by_criteria` (lines 501-531):
an orphaned id (no task data) is only removed from its queue; a task whose
reference image is missing, or whose age exceeds the threshold, is removed
completely (and thereby recorded as failed). -/
def cleanupStep (q : QKind) (now : Nat) (fs : String → Bool) :
    QueueState × Nat → String → QueueState × Nat
  | (s, n), id =>
  match getTask s id with
  | none => (removeFromQueue s q id, n + 1)
  | some task =>
    if task.reference_image_path != "" && !(fs task.reference_image_path) then
      (removeTaskCompletely s q id, n + 1)
    else if task.created_at != "" then
      match getTaskAgeSeconds now task.created_at with
      | some age =>
        if age > staleSeconds q then (removeTaskCompletely s q id, n + 1)
        else (s, n)
      | none => (s, n)
    else (s, n)

/-- `_cleanup_queue_by_criteria(queue_key, queue_name, max_age_hours,
is_set)` (lines 485-533). -/
def cleanupQueueByCriteria (st : QueueState) (q : QKind) (now : Nat)
    (fs : String → Bool) : QueueState × Nat :=
  (queueIdsOf st q).foldl (cleanupStep q now fs) (st, 0)

/-- `_cleanup_all_queues` (lines 474-483): pending, then retry, then
processing. -/
def cleanupAllQueues (st : QueueState) (now : Nat) (fs : String → Bool) :
    QueueState × Nat :=
  let r1 := cleanupQueueByCriteria st QKind.qpending now fs
  let r2 := cleanupQueueByCriteria r1.1 QKind.qretry now fs
  let r3 := cleanupQueueByCriteria r2.1 QKind.qprocessing now fs
  (r3.1, r1.2 + r2.2 + r3.2)

/-! ### Membership lemmas for the Redis primitives -/

theorem mem_sadd_iff (s : List String) (id j : String) :
    j ∈ sadd s id ↔ j ∈ s ∨ j = id := by
  unfold sadd
  by_cases h : id ∈ s
  · rw [if_pos (by simpa using h)]
    constructor
    · exact fun hj => Or.inl hj
    · rintro (hj | rfl)
      · exact hj
      · exact h
  · rw [if_neg (by simpa using h)]
    simp

theorem mem_srem_iff (s : List String) (id j : String) :
    j ∈ srem s id ↔ j ∈ s ∧ j ≠ id := by
  unfold srem
  simp [List.mem_filter]

theorem zmem_iff (z : List (String × Nat)) (j : String) :
    zmem z j = true ↔ j ∈ z.map Prod.fst := by
  unfold zmem
  simp only [List.any_eq_true, beq_iff_eq, List.mem_map]

theorem mem_zrem_iff (z : List (String × Nat)) (id j : String) :
    j ∈ (zrem z id).map Prod.fst ↔ j ∈ z.map Prod.fst ∧ j ≠ id := by
  unfold zrem
  simp only [List.mem_map, List.mem_filter, bne_iff_ne, ne_eq]
  constructor
  · rintro ⟨p, ⟨hp, hne⟩, rfl⟩
    exact ⟨⟨p, hp, rfl⟩, hne⟩
  · rintro ⟨⟨p, hp, rfl⟩, hne⟩
    exact ⟨p, ⟨hp, hne⟩, rfl⟩

theorem mem_zadd_iff (z : List (String × Nat)) (id j : String) (sc : Nat) :
    j ∈ (zadd z id sc).map Prod.fst ↔
      (j ∈ z.map Prod.fst ∧ j ≠ id) ∨ j = id := by
  unfold zadd
  rw [List.map_append, List.mem_append, mem_zrem_iff]
  simp

theorem aget_adel_self {α : Type} (l : List (String × α)) (k : String) :
    aget (adel l k) k = none := by
  have hnone : List.find? (fun p => p.1 == k)
      (List.filter (fun p => p.1 != k) l) = none := by
    rw [List.find?_eq_none]
    intro p hp
    simp only [List.mem_filter, bne_iff_ne, ne_eq] at hp
    simpa using hp.2
  unfold aget adel
  rw [hnone]

theorem aget_adel_ne {α : Type} (l : List (String × α)) (k k' : String)
    (h : k' ≠ k) : aget (adel l k) k' = aget l k' := by
  unfold aget adel
  induction l with
  | nil => rfl
  | cons p rest ih =>
    by_cases hp : p.1 = k
    · have h1 : (p.1 != k) = false := by simp [hp]
      have h2 : (p.1 == k') = false := by
        simpa using fun e => h (by rw [← e, hp])
      simp only [List.filter, h1]
      rw [List.find?]
      simp only [h2]
      simpa using ih
    · have h1 : (p.1 != k) = true := by simpa using hp
      simp only [List.filter, h1]
      rw [List.find?, List.find?]
      cases hq : (p.1 == k') with
      | true => rfl
      | false => simpa using ih

/-! ### Cascade preservation lemmas -/

theorem cascadeStep_retryCount (g e : String) (b : Bool) (s : QueueState)
    (i id : String) :
    (aget (cascadeStep g e b s i).taskData id).map ImageTask.retry_count
      = (aget s.taskData id).map ImageTask.retry_count := by
  unfold cascadeStep getTask
  cases hfind : aget s.taskData i with
  | none => rfl
  | some task =>
    by_cases hm : (task.dependency_group == g
        && task.dependency_type == "persona_dependent") = true
    · by_cases hid : id = i
      · subst hid
        cases b <;> simp [hm, hfind, aget_aset_self]
      · cases b <;> simp [hm, aget_aset_ne _ _ _ _ hid]
    · simp [hm]

theorem cascadeStep_failed_mono (g e : String) (b : Bool) (s : QueueState)
    (i id : String) (h : id ∈ s.failed) :
    id ∈ (cascadeStep g e b s i).failed := by
  unfold cascadeStep getTask
  cases hfind : aget s.taskData i with
  | none => exact h
  | some task =>
    by_cases hm : (task.dependency_group == g
        && task.dependency_type == "persona_dependent") = true
    · cases b <;> simp [hm, mem_sadd_iff, h]
    · simp [hm, h]

theorem cascadeStep_retry_none (g e : String) (b : Bool) (s : QueueState)
    (i id : String) (h : zmem s.retry id = false) :
    zmem (cascadeStep g e b s i).retry id = false := by
  have hz : zmem (zrem s.retry i) id = false := by
    rw [← Bool.not_eq_true] at h ⊢
    intro hcon
    exact h (by
      rw [zmem_iff] at hcon ⊢
      exact ((mem_zrem_iff _ _ _).mp hcon).1)
  unfold cascadeStep getTask
  cases hfind : aget s.taskData i with
  | none => exact h
  | some task =>
    by_cases hm : (task.dependency_group == g
        && task.dependency_type == "persona_dependent") = true
    · cases b <;> simp [hm] <;> first | exact hz | exact h
    · simp [hm, h]

theorem cascadeFold_retryCount (g e : String) (b : Bool) (ids : List String)
    (s : QueueState) (id : String) :
    (aget (ids.foldl (cascadeStep g e b) s).taskData id).map
        ImageTask.retry_count
      = (aget s.taskData id).map ImageTask.retry_count := by
  induction ids generalizing s with
  | nil => rfl
  | cons i rest ih =>
    rw [List.foldl_cons, ih, cascadeStep_retryCount]

theorem cascadeFold_failed_mono (g e : String) (b : Bool) (ids : List String)
    (s : QueueState) (id : String) (h : id ∈ s.failed) :
    id ∈ (ids.foldl (cascadeStep g e b) s).failed := by
  induction ids generalizing s with
  | nil => exact h
  | cons i rest ih =>
    rw [List.foldl_cons]
    exact ih _ (cascadeStep_failed_mono g e b s i id h)

theorem cascadeFold_retry_none (g e : String) (b : Bool) (ids : List String)
    (s : QueueState) (id : String) (h : zmem s.retry id = false) :
    zmem (ids.foldl (cascadeStep g e b) s).retry id = false := by
  induction ids generalizing s with
  | nil => exact h
  | cons i rest ih =>
    rw [List.foldl_cons]
    exact ih _ (cascadeStep_retry_none g e b s i id h)

theorem failDependentTasks_retryCount (st : QueueState) (g e id : String) :
    (aget (failDependentTasks st g e).taskData id).map ImageTask.retry_count
      = (aget st.taskData id).map ImageTask.retry_count := by
  unfold failDependentTasks
  rw [cascadeFold_retryCount, cascadeFold_retryCount]

theorem failDependentTasks_failed_mono (st : QueueState) (g e id : String)
    (h : id ∈ st.failed) : id ∈ (failDependentTasks st g e).failed := by
  unfold failDependentTasks
  exact cascadeFold_failed_mono _ _ _ _ _ _
    (cascadeFold_failed_mono _ _ _ _ _ _ h)

theorem failDependentTasks_retry_none (st : QueueState) (g e id : String)
    (h : zmem st.retry id = false) :
    zmem (failDependentTasks st g e).retry id = false := by
  unfold failDependentTasks
  exact cascadeFold_retry_none _ _ _ _ _ _
    (cascadeFold_retry_none _ _ _ _ _ _ h)

/-! ### C6: the retry boundary -/

/-- A plain task for the concrete scenarios. -/
def taskT : ImageTask := { task_id := "T", job_id := "J", job_type := "single" }

/-- One non-rate-limited failure of "T". -/
def stepFail (s : QueueState) : QueueState := markFailed s "T" "x" false false

/-- One pull (the scheduler pulls the task into processing before working
on it). -/
def stepPull (s : QueueState) : QueueState := (getBatch s 10).1

/-- The state after submit, then pull/fail twice. -/
def twoFailures : QueueState :=
  stepFail (stepPull (stepFail (stepPull (submit emptyQueue taskT))))

/-- The state after submit, then pull/fail three times. -/
def threeFailures : QueueState := stepFail (stepPull twoFailures)

/-- Reduction of `mark_failed` once the task lookup succeeds: the literal
body of the definition. -/
theorem markFailed_eq (st : QueueState) (T e : String) (tk : ImageTask)
    (rl perm : Bool) (hdata : getTask st T = some tk) :
    markFailed st T e rl perm =
      (let task1 := if !rl && !perm then
          { tk with retry_count := tk.retry_count + 1 } else tk
       let task2 := { task1 with last_error := e }
       let st2 : QueueState := { st with
         processing := srem st.processing T,
         taskData := aset st.taskData T task2 }
       let st3 := if perm || task2.retry_count ≥ MAX_RETRIES then
           (let s : QueueState := { st2 with failed := sadd st2.failed T }
            if task2.dependency_type == "persona_first" then
              failDependentTasks s task2.dependency_group
                ("Dependency " ++ T ++ " failed: " ++ e)
            else s)
         else { st2 with retry := zadd st2.retry T st2.clock }
       { st3 with clock := st3.clock + 1 }) := by
  unfold markFailed
  rw [hdata]

/-- C6: with `MAX_RETRIES = 3`, a non-rate-limited, non-permanent `fail` of a
task whose stored `retry_count` is `c` stores `retry_count = c + 1`; while
`c + 1 < 3` the task is placed in the retry set and not permanently failed;
exactly when `c + 1 ≥ 3` it moves to the failed set.  Concretely: after two
pull/fail rounds "T" sits in retry with `retry_count = 2` and is not failed;
the third failure moves it to failed with `retry_count = 3`. -/
theorem markFailed_retry_boundary
    (st : QueueState) (T e : String) (tk : ImageTask)
    (hdata : getTask st T = some tk)
    (hfail : T ∉ st.failed) (hretry : zmem st.retry T = false) :
    ((getTask (markFailed st T e false false) T).map ImageTask.retry_count
        = some (tk.retry_count + 1)) ∧
    (tk.retry_count + 1 < MAX_RETRIES →
      zmem (markFailed st T e false false).retry T = true ∧
      T ∉ (markFailed st T e false false).failed) ∧
    (tk.retry_count + 1 ≥ MAX_RETRIES →
      T ∈ (markFailed st T e false false).failed ∧
      zmem (markFailed st T e false false).retry T = false) ∧
    (zmem twoFailures.retry "T" = true ∧
      (getTask twoFailures "T").map ImageTask.retry_count = some 2 ∧
      "T" ∉ twoFailures.failed) ∧
    ((getTask threeFailures "T").map ImageTask.retry_count = some 3 ∧
      "T" ∈ threeFailures.failed ∧
      zmem threeFailures.retry "T" = false) := by
  have hred := markFailed_eq st T e tk false false hdata
  by_cases hge : tk.retry_count + 1 ≥ MAX_RETRIES
  · by_cases hdep : (tk.dependency_type == "persona_first") = true
    · simp [hge, hdep] at hred
      refine ⟨?_, fun hlt => absurd hge (by omega), fun _ => ?_,
        by decide, by decide⟩
      · rw [hred]
        show (aget (failDependentTasks _ _ _).taskData T).map
            ImageTask.retry_count = _
        rw [failDependentTasks_retryCount]
        simp [aget_aset_self]
      · rw [hred]
        constructor
        · show T ∈ (failDependentTasks _ _ _).failed
          apply failDependentTasks_failed_mono
          simp [mem_sadd_iff]
        · show zmem (failDependentTasks _ _ _).retry T = false
          apply failDependentTasks_retry_none
          simpa using hretry
    · simp [hge, hdep] at hred
      refine ⟨?_, fun hlt => absurd hge (by omega), fun _ => ?_,
        by decide, by decide⟩
      · rw [hred]
        show (aget (aset st.taskData T _) T).map ImageTask.retry_count = _
        simp [aget_aset_self]
      · rw [hred]
        exact ⟨by simp [mem_sadd_iff], by simpa using hretry⟩
  · simp [hge] at hred
    refine ⟨?_, fun _ => ?_, fun hge2 => absurd hge2 hge, by decide, by decide⟩
    · rw [hred]
      show (aget (aset st.taskData T _) T).map ImageTask.retry_count = _
      simp [aget_aset_self]
    · rw [hred]
      refine ⟨?_, by simpa using hfail⟩
      show zmem (zadd st.retry T st.clock) T = true
      rw [zmem_iff]
      exact (mem_zadd_iff _ _ _ _).mpr (Or.inr rfl)

theorem markFailed_retry_boundary_witness :
    (getTask (markFailed (stepPull (submit emptyQueue taskT)) "T" "x"
        false false) "T").map ImageTask.retry_count = some 1 := by
  have h := (markFailed_retry_boundary (stepPull (submit emptyQueue taskT))
      "T" "x" { taskT with created_at := "0", started_at := "1" }
      rfl (by decide) rfl).1
  simpa using h

/-! ### C7: rate-limited failures -/

theorem rl_count_eq (s : QueueState) (T e : String) :
    (getTask (markFailed s T e true false) T).map ImageTask.retry_count
      = (getTask s T).map ImageTask.retry_count := by
  cases hdata : getTask s T with
  | none =>
    simp [markFailed, hdata]
  | some tk =>
    have hred := markFailed_eq s T e tk true false hdata
    by_cases hge : tk.retry_count ≥ MAX_RETRIES
    · by_cases hdep : (tk.dependency_type == "persona_first") = true
      · simp [hge, hdep] at hred
        rw [hred]
        show (aget (failDependentTasks _ _ _).taskData T).map
            ImageTask.retry_count = _
        rw [failDependentTasks_retryCount]
        simp [aget_aset_self, hdata]
      · simp [hge, hdep] at hred
        rw [hred]
        show (aget (aset s.taskData T _) T).map ImageTask.retry_count = _
        simp [aget_aset_self, hdata]
    · simp [hge] at hred
      rw [hred]
      show (aget (aset s.taskData T _) T).map ImageTask.retry_count = _
      simp [aget_aset_self, hdata]

/-- The shape of a rate-limited failure below the retry limit: no counter
bump, re-enqueued to retry with the current clock as fresh FIFO score. -/
theorem rl_below_limit_shape (s : QueueState) (T e : String) (tk : ImageTask)
    (hdata : getTask s T = some tk) (hc : tk.retry_count < MAX_RETRIES) :
    markFailed s T e true false =
      (let tk2 : ImageTask := { tk with last_error := e }
       { s with
         processing := srem s.processing T,
         taskData := aset s.taskData T tk2,
         retry := zadd s.retry T s.clock,
         clock := s.clock + 1 }) := by
  have hred := markFailed_eq s T e tk true false hdata
  have hge : ¬ (tk.retry_count ≥ MAX_RETRIES) := by omega
  simp [hge] at hred
  exact hred

/-- A non-rate-limited, non-permanent failure always stores
`retry_count + 1`. -/
theorem markFailed_incr_count (st : QueueState) (T e : String)
    (tk : ImageTask) (hdata : getTask st T = some tk) :
    (getTask (markFailed st T e false false) T).map ImageTask.retry_count
      = some (tk.retry_count + 1) := by
  have hred := markFailed_eq st T e tk false false hdata
  by_cases hge : tk.retry_count + 1 ≥ MAX_RETRIES
  · by_cases hdep : (tk.dependency_type == "persona_first") = true
    · simp [hge, hdep] at hred
      rw [hred]
      show (aget (failDependentTasks _ _ _).taskData T).map
          ImageTask.retry_count = _
      rw [failDependentTasks_retryCount]
      simp [aget_aset_self]
    · simp [hge, hdep] at hred
      rw [hred]
      show (aget (aset st.taskData T _) T).map ImageTask.retry_count = _
      simp [aget_aset_self]
  · simp [hge] at hred
    rw [hred]
    show (aget (aset st.taskData T _) T).map ImageTask.retry_count = _
    simp [aget_aset_self]

/-- The shape of a non-rate-limited failure below the retry limit. -/
theorem markFailed_incr_shape (st : QueueState) (T e : String)
    (tk : ImageTask) (hdata : getTask st T = some tk)
    (hlt : tk.retry_count + 1 < MAX_RETRIES) :
    markFailed st T e false false =
      (let tk2 : ImageTask :=
         { tk with retry_count := tk.retry_count + 1, last_error := e }
       { st with
         processing := srem st.processing T,
         taskData := aset st.taskData T tk2,
         retry := zadd st.retry T st.clock,
         clock := st.clock + 1 }) := by
  have hred := markFailed_eq st T e tk false false hdata
  have hge : ¬ (tk.retry_count + 1 ≥ MAX_RETRIES) := by omega
  simp [hge] at hred
  exact hred

/-- C7: a rate-limited `fail` never increments `retry_count` — five in a row
leave it unchanged and, while `retry_count < MAX_RETRIES`, never move the
task to failed (each such call re-enqueues it to retry) — whereas a
non-rate-limited, non-permanent `fail` increments `retry_count` and
re-enqueues the task to the retry set with a fresh FIFO score (the current
clock, strictly larger than every score already in the set). -/
theorem markFailed_rate_limit_spec
    (st : QueueState) (T e : String) (tk : ImageTask)
    (hdata : getTask st T = some tk)
    (hfail : T ∉ st.failed)
    (hc : tk.retry_count < MAX_RETRIES) :
    ((getTask (markFailed st T e true false) T).map ImageTask.retry_count
        = some tk.retry_count) ∧
    ((markFailed st T e true false).retry = zadd st.retry T st.clock ∧
      T ∉ (markFailed st T e true false).failed) ∧
    ((getTask (markFailed (markFailed (markFailed (markFailed
          (markFailed st T e true false) T e true false) T e true false)
          T e true false) T e true false) T).map ImageTask.retry_count
        = some tk.retry_count ∧
      T ∉ (markFailed (markFailed (markFailed (markFailed
          (markFailed st T e true false) T e true false) T e true false)
          T e true false) T e true false).failed) ∧
    ((getTask (markFailed st T e false false) T).map ImageTask.retry_count
        = some (tk.retry_count + 1)) ∧
    (tk.retry_count + 1 < MAX_RETRIES →
      (markFailed st T e false false).retry = zadd st.retry T st.clock) := by
  have step : ∀ s : QueueState,
      (getTask s T).map ImageTask.retry_count = some tk.retry_count →
      T ∉ s.failed →
      ((getTask (markFailed s T e true false) T).map ImageTask.retry_count
          = some tk.retry_count ∧
        T ∉ (markFailed s T e true false).failed) := by
    intro s hmap hf
    obtain ⟨tk', hdata', hcount⟩ := Option.map_eq_some'.mp hmap
    have hc' : tk'.retry_count < MAX_RETRIES := by rw [hcount]; exact hc
    have hshape := rl_below_limit_shape s T e tk' hdata' hc'
    constructor
    · rw [rl_count_eq]; exact hmap
    · rw [hshape]; simpa using hf
  have h0 : (getTask st T).map ImageTask.retry_count = some tk.retry_count :=
    by rw [hdata]; rfl
  have s1 := step st h0 hfail
  have s2 := step _ s1.1 s1.2
  have s3 := step _ s2.1 s2.2
  have s4 := step _ s3.1 s3.2
  have s5 := step _ s4.1 s4.2
  refine ⟨s1.1, ⟨?_, s1.2⟩, ⟨s5.1, s5.2⟩, markFailed_incr_count st T e tk hdata, ?_⟩
  · rw [rl_below_limit_shape st T e tk hdata hc]
  · intro hlt
    rw [markFailed_incr_shape st T e tk hdata hlt]

theorem markFailed_rate_limit_spec_witness :
    (getTask (markFailed (stepPull (submit emptyQueue taskT)) "T" "x"
        true false) "T").map ImageTask.retry_count = some 0 := by
  have h := (markFailed_rate_limit_spec (stepPull (submit emptyQueue taskT))
      "T" "x" { taskT with created_at := "0", started_at := "1" }
      rfl (by decide) (by decide)).1
  simpa using h

/-! ### C2: cascade of a permanently failed producer -/

theorem zrangeFromZero_all (z : List (String × Nat)) :
    zrangeFromZero z (-1) = z.map Prod.fst := by
  unfold zrangeFromZero
  simp

theorem cascadeStep_data_ne (g e : String) (b : Bool) (s : QueueState)
    (i C : String) (h : i ≠ C) :
    aget (cascadeStep g e b s i).taskData C = aget s.taskData C := by
  unfold cascadeStep getTask
  cases hfind : aget s.taskData i with
  | none => rfl
  | some task =>
    by_cases hm : (task.dependency_group == g
        && task.dependency_type == "persona_dependent") = true
    · cases b <;> simp [hm, aget_aset_ne _ _ _ _ (Ne.symm h)]
    · simp [hm]

theorem cascadeFold_data_not_in (g e : String) (b : Bool)
    (ids : List String) (s : QueueState) (C : String) (h : C ∉ ids) :
    aget (ids.foldl (cascadeStep g e b) s).taskData C = aget s.taskData C := by
  induction ids generalizing s with
  | nil => rfl
  | cons i rest ih =>
    rw [List.foldl_cons]
    have hne : i ≠ C := fun e2 => h (e2 ▸ List.mem_cons_self i rest)
    rw [ih _ (fun hmem => h (List.mem_cons_of_mem i hmem)),
      cascadeStep_data_ne g e b s i C hne]

theorem cascadeStep_pending_none (g e : String) (b : Bool) (s : QueueState)
    (i id : String) (h : zmem s.pending id = false) :
    zmem (cascadeStep g e b s i).pending id = false := by
  have hz : zmem (zrem s.pending i) id = false := by
    rw [← Bool.not_eq_true] at h ⊢
    intro hcon
    exact h (by
      rw [zmem_iff] at hcon ⊢
      exact ((mem_zrem_iff _ _ _).mp hcon).1)
  unfold cascadeStep getTask
  cases hfind : aget s.taskData i with
  | none => exact h
  | some task =>
    by_cases hm : (task.dependency_group == g
        && task.dependency_type == "persona_dependent") = true
    · cases b <;> simp [hm] <;> first | exact hz | exact h
    · simp [hm, h]

theorem cascadeFold_pending_none (g e : String) (b : Bool)
    (ids : List String) (s : QueueState) (id : String)
    (h : zmem s.pending id = false) :
    zmem (ids.foldl (cascadeStep g e b) s).pending id = false := by
  induction ids generalizing s with
  | nil => exact h
  | cons i rest ih =>
    rw [List.foldl_cons]
    exact ih _ (cascadeStep_pending_none g e b s i id h)

theorem cascadeStep_pending_const (g e : String) (s : QueueState)
    (i : String) : (cascadeStep g e false s i).pending = s.pending := by
  unfold cascadeStep getTask
  cases hfind : aget s.taskData i with
  | none => rfl
  | some task =>
    by_cases hm : (task.dependency_group == g
        && task.dependency_type == "persona_dependent") = true
    · simp [hm]
    · simp [hm]

theorem cascadeFold_pending_const (g e : String) (ids : List String)
    (s : QueueState) :
    (ids.foldl (cascadeStep g e false) s).pending = s.pending := by
  induction ids generalizing s with
  | nil => rfl
  | cons i rest ih =>
    rw [List.foldl_cons, ih, cascadeStep_pending_const]

theorem cascadeStep_retry_const (g e : String) (s : QueueState)
    (i : String) : (cascadeStep g e true s i).retry = s.retry := by
  unfold cascadeStep getTask
  cases hfind : aget s.taskData i with
  | none => rfl
  | some task =>
    by_cases hm : (task.dependency_group == g
        && task.dependency_type == "persona_dependent") = true
    · simp [hm]
    · simp [hm]

theorem cascadeFold_retry_const (g e : String) (ids : List String)
    (s : QueueState) :
    (ids.foldl (cascadeStep g e true) s).retry = s.retry := by
  induction ids generalizing s with
  | nil => rfl
  | cons i rest ih =>
    rw [List.foldl_cons, ih, cascadeStep_retry_const]

/-- The post-hit invariant: once a matching consumer has been moved to
failed with its data rewritten, every further cascade step keeps it there
(a duplicate hit rewrites the data to the same value). -/
theorem cascadeStep_hit_preserved (g e : String) (b : Bool) (s : QueueState)
    (i C : String) (tkc : ImageTask)
    (hg : tkc.dependency_group = g)
    (ht : tkc.dependency_type = "persona_dependent")
    (hf : C ∈ s.failed)
    (hd : aget s.taskData C = some { tkc with last_error := e }) :
    C ∈ (cascadeStep g e b s i).failed ∧
    aget (cascadeStep g e b s i).taskData C
      = some { tkc with last_error := e } := by
  refine ⟨cascadeStep_failed_mono g e b s i C hf, ?_⟩
  by_cases hic : i = C
  · subst hic
    unfold cascadeStep getTask
    rw [hd]
    have hm : (({ tkc with last_error := e } : ImageTask).dependency_group == g
        && ({ tkc with last_error := e } : ImageTask).dependency_type
          == "persona_dependent") = true := by
      simp [hg, ht]
    cases b <;> simp [hm, aget_aset_self]
  · rw [cascadeStep_data_ne g e b s i C hic]
    exact hd

theorem cascadeFold_hit_preserved (g e : String) (b : Bool)
    (ids : List String) (s : QueueState) (C : String) (tkc : ImageTask)
    (hg : tkc.dependency_group = g)
    (ht : tkc.dependency_type = "persona_dependent")
    (hf : C ∈ s.failed)
    (hd : aget s.taskData C = some { tkc with last_error := e }) :
    C ∈ (ids.foldl (cascadeStep g e b) s).failed ∧
    aget (ids.foldl (cascadeStep g e b) s).taskData C
      = some { tkc with last_error := e } := by
  induction ids generalizing s with
  | nil => exact ⟨hf, hd⟩
  | cons i rest ih =>
    rw [List.foldl_cons]
    obtain ⟨hf', hd'⟩ := cascadeStep_hit_preserved g e b s i C tkc hg ht hf hd
    exact ih _ hf' hd'

/-- A consumer whose id appears in the scanned snapshot and whose data
matches the group is moved to failed with the error recorded. -/
theorem cascadeFold_hits (g e : String) (b : Bool) (ids : List String)
    (s : QueueState) (C : String) (tkc : ImageTask)
    (hin : C ∈ ids)
    (hdata : aget s.taskData C = some tkc)
    (hg : tkc.dependency_group = g)
    (ht : tkc.dependency_type = "persona_dependent") :
    C ∈ (ids.foldl (cascadeStep g e b) s).failed ∧
    aget (ids.foldl (cascadeStep g e b) s).taskData C
      = some { tkc with last_error := e } := by
  induction ids generalizing s with
  | nil => cases hin
  | cons i rest ih =>
    rw [List.foldl_cons]
    by_cases hic : i = C
    · subst hic
      have hm : (tkc.dependency_group == g
          && tkc.dependency_type == "persona_dependent") = true := by
        simp [hg, ht]
      have hstep : i ∈ (cascadeStep g e b s i).failed ∧
          aget (cascadeStep g e b s i).taskData i
            = some { tkc with last_error := e } := by
        unfold cascadeStep getTask
        rw [hdata]
        cases b <;> simp [hm, aget_aset_self, mem_sadd_iff]
      exact cascadeFold_hit_preserved g e b rest _ i tkc hg ht
        hstep.1 hstep.2
    · cases List.mem_cons.mp hin with
      | inl hCi => exact absurd hCi.symm hic
      | inr hrest =>
        exact ih _ hrest
          (by rw [cascadeStep_data_ne g e b s i C hic]; exact hdata)

theorem cascadeFold_hits_pending (g e : String) (ids : List String)
    (s : QueueState) (C : String) (tkc : ImageTask)
    (hin : C ∈ ids)
    (hdata : aget s.taskData C = some tkc)
    (hg : tkc.dependency_group = g)
    (ht : tkc.dependency_type = "persona_dependent") :
    zmem (ids.foldl (cascadeStep g e true) s).pending C = false := by
  induction ids generalizing s with
  | nil => cases hin
  | cons i rest ih =>
    rw [List.foldl_cons]
    by_cases hic : i = C
    · subst hic
      have hm : (tkc.dependency_group == g
          && tkc.dependency_type == "persona_dependent") = true := by
        simp [hg, ht]
      have hstep : zmem (cascadeStep g e true s i).pending i = false := by
        unfold cascadeStep getTask
        rw [hdata]
        simp only [hm, if_true]
        show zmem (zrem s.pending i) i = false
        rw [← Bool.not_eq_true]
        intro hcon
        rw [zmem_iff] at hcon
        exact ((mem_zrem_iff _ _ _).mp hcon).2 rfl
      exact cascadeFold_pending_none g e true rest _ i hstep
    · cases List.mem_cons.mp hin with
      | inl hCi => exact absurd hCi.symm hic
      | inr hrest =>
        exact ih _ hrest
          (by rw [cascadeStep_data_ne g e true s i C hic]; exact hdata)

theorem cascadeFold_hits_retry (g e : String) (ids : List String)
    (s : QueueState) (C : String) (tkc : ImageTask)
    (hin : C ∈ ids)
    (hdata : aget s.taskData C = some tkc)
    (hg : tkc.dependency_group = g)
    (ht : tkc.dependency_type = "persona_dependent") :
    zmem (ids.foldl (cascadeStep g e false) s).retry C = false := by
  induction ids generalizing s with
  | nil => cases hin
  | cons i rest ih =>
    rw [List.foldl_cons]
    by_cases hic : i = C
    · subst hic
      have hm : (tkc.dependency_group == g
          && tkc.dependency_type == "persona_dependent") = true := by
        simp [hg, ht]
      have hstep : zmem (cascadeStep g e false s i).retry i = false := by
        unfold cascadeStep getTask
        rw [hdata]
        simp only [hm, if_true]
        show zmem (zrem s.retry i) i = false
        rw [← Bool.not_eq_true]
        intro hcon
        rw [zmem_iff] at hcon
        exact ((mem_zrem_iff _ _ _).mp hcon).2 rfl
      exact cascadeFold_retry_none g e false rest _ i hstep
    · cases List.mem_cons.mp hin with
      | inl hCi => exact absurd hCi.symm hic
      | inr hrest =>
        exact ih _ hrest
          (by rw [cascadeStep_data_ne g e false s i C hic]; exact hdata)

/-- `_fail_dependent_tasks` moves a matching consumer now in pending or
retry to failed, records the cascade error on it, and removes it from both
queues. -/
theorem failDependentTasks_hits (s : QueueState) (g e C : String)
    (tkc : ImageTask)
    (hdata : aget s.taskData C = some tkc)
    (hg : tkc.dependency_group = g)
    (ht : tkc.dependency_type = "persona_dependent")
    (hmem : zmem s.pending C = true ∨ zmem s.retry C = true) :
    C ∈ (failDependentTasks s g e).failed ∧
    aget (failDependentTasks s g e).taskData C
      = some { tkc with last_error := e } ∧
    zmem (failDependentTasks s g e).pending C = false ∧
    zmem (failDependentTasks s g e).retry C = false := by
  unfold failDependentTasks
  have hpall : zrangeFromZero s.pending (-1) = s.pending.map Prod.fst :=
    zrangeFromZero_all s.pending
  by_cases hp : zmem s.pending C = true
  · have hinp : C ∈ zrangeFromZero s.pending (-1) := by
      rw [hpall]; exact (zmem_iff _ _).mp hp
    obtain ⟨hf1, hd1⟩ := cascadeFold_hits g e true
      (zrangeFromZero s.pending (-1)) s C tkc hinp hdata hg ht
    have hpend1 := cascadeFold_hits_pending g e
      (zrangeFromZero s.pending (-1)) s C tkc hinp hdata hg ht
    have hretry1 : ((zrangeFromZero s.pending (-1)).foldl
        (cascadeStep g e true) s).retry = s.retry :=
      cascadeFold_retry_const g e _ s
    set st1 := (zrangeFromZero s.pending (-1)).foldl (cascadeStep g e true) s
    have hpconst : ∀ l : List String,
        (l.foldl (cascadeStep g e false) st1).pending = st1.pending :=
      fun l => cascadeFold_pending_const g e l st1
    by_cases hr : zmem s.retry C = true
    · have hinr : C ∈ zrangeFromZero st1.retry (-1) := by
        rw [zrangeFromZero_all, hretry1]
        exact (zmem_iff _ _).mp hr
      obtain ⟨hf2, hd2⟩ := cascadeFold_hits g e false
        (zrangeFromZero st1.retry (-1)) st1 C { tkc with last_error := e }
        hinr hd1 hg ht
      have hret2 := cascadeFold_hits_retry g e
        (zrangeFromZero st1.retry (-1)) st1 C { tkc with last_error := e }
        hinr hd1 hg ht
      exact ⟨hf2, hd2, by rw [hpconst]; exact hpend1, hret2⟩
    · have hr1 : zmem st1.retry C = false := by
        rw [hretry1]; simpa using hr
      obtain ⟨hf2, hd2⟩ := cascadeFold_hit_preserved g e false
        (zrangeFromZero st1.retry (-1)) st1 C tkc hg ht hf1 hd1
      exact ⟨hf2, hd2, by rw [hpconst]; exact hpend1,
        cascadeFold_retry_none g e false _ st1 C hr1⟩
  · have hr : zmem s.retry C = true := hmem.resolve_left hp
    have hnotin : C ∉ zrangeFromZero s.pending (-1) := by
      rw [hpall]
      intro hcon
      exact absurd ((zmem_iff _ _).mpr hcon) hp
    have hd1 : aget ((zrangeFromZero s.pending (-1)).foldl
        (cascadeStep g e true) s).taskData C = some tkc :=
      by rw [cascadeFold_data_not_in g e true _ s C hnotin]; exact hdata
    have hretry1 : ((zrangeFromZero s.pending (-1)).foldl
        (cascadeStep g e true) s).retry = s.retry :=
      cascadeFold_retry_const g e _ s
    set st1 := (zrangeFromZero s.pending (-1)).foldl (cascadeStep g e true) s
    have hp1 : zmem st1.pending C = false :=
      cascadeFold_pending_none g e true _ s C (by simpa using hp)
    have hinr : C ∈ zrangeFromZero st1.retry (-1) := by
      rw [zrangeFromZero_all, hretry1]
      exact (zmem_iff _ _).mp hr
    obtain ⟨hf2, hd2⟩ := cascadeFold_hits g e false
      (zrangeFromZero st1.retry (-1)) st1 C tkc hinr hd1 hg ht
    have hret2 := cascadeFold_hits_retry g e
      (zrangeFromZero st1.retry (-1)) st1 C tkc hinr hd1 hg ht
    refine ⟨hf2, hd2, ?_, hret2⟩
    rw [cascadeFold_pending_const]
    exact hp1

/-! ### Dependency gating at pull time -/

theorem processQueueIds_deps (b : Bool) (limit : Nat) (ids : List String)
    (st : QueueState) (acc : List ImageTask) :
    (processQueueIds b limit ids st acc).1.deps = st.deps := by
  induction ids generalizing st acc with
  | nil => rfl
  | cons i rest ih =>
    rw [processQueueIds]
    split
    · rfl
    · split
      · exact ih st acc
      · split
        · exact ih st acc
        · exact ih _ _

/-- Every task a pull scan accepts with `dependency_type =
"persona_dependent"` has a satisfied dependency record carrying its
persona reference (accumulator tasks assumed to have it already). -/
theorem processQueueIds_consumer_satisfied (b : Bool) (limit : Nat)
    (ids : List String) (st : QueueState) (acc : List ImageTask)
    (hacc : ∀ t ∈ acc, t.dependency_type = "persona_dependent" →
      ∃ dep, aget st.deps t.dependency_group = some dep ∧
        dep.completed = true ∧ t.persona_reference_path = dep.result_path) :
    ∀ t ∈ (processQueueIds b limit ids st acc).2,
      t.dependency_type = "persona_dependent" →
      ∃ dep, aget st.deps t.dependency_group = some dep ∧
        dep.completed = true ∧ t.persona_reference_path = dep.result_path := by
  induction ids generalizing st acc with
  | nil => exact hacc
  | cons i rest ih =>
    rw [processQueueIds]
    split
    · exact hacc
    · split
      · exact ih st acc hacc
      · split
        · exact ih st acc hacc
        · rename_i task hget x2 task1 hcan
          apply ih
          intro t ht hdep
          cases List.mem_append.mp ht with
          | inl hold =>
            obtain ⟨dep, h1, h2, h3⟩ := hacc t hold hdep
            exact ⟨dep, h1, h2, h3⟩
          | inr hnew =>
            have hteq : t = { task1 with started_at := toString st.clock } :=
              by simpa using hnew
            subst hteq
            unfold canProcessTask at hcan
            by_cases hty : (task.dependency_type == "persona_dependent") = true
            · rw [if_pos hty] at hcan
              split at hcan
              · cases hcan
              · rename_i dep hdeplk
                split at hcan
                · rename_i hcomp
                  obtain rfl : { task with
                      persona_reference_path := dep.result_path } = task1 :=
                    by simpa using hcan
                  exact ⟨dep, by simpa using hdeplk, hcomp, by simp⟩
                · cases hcan
            · rw [if_neg hty] at hcan
              obtain rfl : task = task1 := by simpa using hcan
              exfalso
              apply hty
              simpa using hdep

theorem getBatch_consumer_satisfied (st : QueueState) (limit : Nat) :
    ∀ t ∈ (getBatch st limit).2,
      t.dependency_type = "persona_dependent" →
      ∃ dep, aget st.deps t.dependency_group = some dep ∧
        dep.completed = true ∧ t.persona_reference_path = dep.result_path := by
  unfold getBatch
  cases hp1 : processQueueIds true limit
      (zrangeFromZero st.retry ((limit : Int) - 1)) st [] with
  | mk st1 tasks1 =>
    have hdeps1 : st1.deps = st.deps := by
      have := processQueueIds_deps true limit
        (zrangeFromZero st.retry ((limit : Int) - 1)) st []
      rw [hp1] at this
      exact this
    have h1 : ∀ t ∈ tasks1, t.dependency_type = "persona_dependent" →
        ∃ dep, aget st.deps t.dependency_group = some dep ∧
          dep.completed = true ∧
          t.persona_reference_path = dep.result_path := by
      have := processQueueIds_consumer_satisfied true limit
        (zrangeFromZero st.retry ((limit : Int) - 1)) st []
        (by intro t ht; cases ht)
      rw [hp1] at this
      exact this
    by_cases hrem : limit - tasks1.length > 0
    · simp only [hp1, hrem, if_true]
      cases hp2 : processQueueIds false limit
          (zrangeFromZero st1.pending ((limit - tasks1.length : Nat) * 2))
          st1 tasks1 with
      | mk st2 tasks2 =>
        have h2 := processQueueIds_consumer_satisfied false limit
          (zrangeFromZero st1.pending ((limit - tasks1.length : Nat) * 2))
          st1 tasks1 (by rw [hdeps1]; exact h1)
        rw [hp2] at h2
        intro t ht hdep
        obtain ⟨dep, ha, hb, hc⟩ := h2 t ht hdep
        exact ⟨dep, by rw [← hdeps1]; exact ha, hb, hc⟩
    · simp only [hp1, hrem, if_false]
      exact h1

/-- The shape of `mark_failed` on a producer that reaches permanent
failure: the task's record is rewritten (to some record `r`), the task
joins failed, and the cascade runs on the group. -/
theorem markFailed_perm_producer_shape
    (st : QueueState) (P e : String) (tk : ImageTask) (rl perm : Bool)
    (hdata : getTask st P = some tk)
    (hprod : tk.dependency_type = "persona_first")
    (hperm : perm = true ∨
      (if !rl && !perm then tk.retry_count + 1 else tk.retry_count)
        ≥ MAX_RETRIES) :
    ∃ r : ImageTask,
      markFailed st P e rl perm =
        (let s2 : QueueState := { st with
           processing := srem st.processing P,
           taskData := aset st.taskData P r,
           failed := sadd st.failed P }
         let s3 := failDependentTasks s2 tk.dependency_group
           ("Dependency " ++ P ++ " failed: " ++ e)
         { s3 with clock := s3.clock + 1 }) := by
  cases perm with
  | true =>
    have hred := markFailed_eq st P e tk rl true hdata
    simp [hprod] at hred
    exact ⟨_, hred⟩
  | false =>
    cases rl with
    | true =>
      have hc : tk.retry_count ≥ MAX_RETRIES := by simpa using hperm
      have hred := markFailed_eq st P e tk true false hdata
      simp [hprod, hc] at hred
      exact ⟨_, hred⟩
    | false =>
      have hc : tk.retry_count + 1 ≥ MAX_RETRIES := by simpa using hperm
      have hred := markFailed_eq st P e tk false false hdata
      simp [hprod, hc] at hred
      exact ⟨_, hred⟩

/-- C2: when a `fail` call moves a producer (`persona_first`) task to
permanent failure, every consumer (`persona_dependent`) task of its
dependency group with stored data currently in pending or retry is moved to
the failed set, removed from both queues, with the cascade error recorded;
and no consumer of an unsatisfied dependency group is ever returned by a
pull — so no consumer waits forever on a producer that permanently
failed. -/
theorem producer_failure_cascades
    (st : QueueState) (P e : String) (tk : ImageTask) (rl perm : Bool)
    (hdata : getTask st P = some tk)
    (hprod : tk.dependency_type = "persona_first")
    (hperm : perm = true ∨
      (if !rl && !perm then tk.retry_count + 1 else tk.retry_count)
        ≥ MAX_RETRIES) :
    (∀ C tkc, getTask st C = some tkc →
      tkc.dependency_group = tk.dependency_group →
      tkc.dependency_type = "persona_dependent" →
      (zmem st.pending C = true ∨ zmem st.retry C = true) →
      C ∈ (markFailed st P e rl perm).failed ∧
      zmem (markFailed st P e rl perm).pending C = false ∧
      zmem (markFailed st P e rl perm).retry C = false ∧
      getTask (markFailed st P e rl perm) C
        = some { tkc with
            last_error := "Dependency " ++ P ++ " failed: " ++ e }) ∧
    (∀ limit t, t ∈ (getBatch st limit).2 →
      t.dependency_type = "persona_dependent" →
      ∃ dep, aget st.deps t.dependency_group = some dep ∧
        dep.completed = true) := by
  constructor
  · intro C tkc hCdata hgr htyC hmem
    have hCP : C ≠ P := by
      intro h
      subst h
      rw [hdata] at hCdata
      obtain rfl : tk = tkc := by injection hCdata
      have : ("persona_first" : String) = "persona_dependent" :=
        hprod ▸ htyC
      exact absurd this (by decide)
    obtain ⟨r, hshape⟩ :=
      markFailed_perm_producer_shape st P e tk rl perm hdata hprod hperm
    rw [hshape]
    have hC2 : aget (aset st.taskData P r) C = some tkc := by
      rw [aget_aset_ne _ _ _ _ hCP]
      exact hCdata
    obtain ⟨h1, h2, h3, h4⟩ := failDependentTasks_hits
      { st with
        processing := srem st.processing P,
        taskData := aset st.taskData P r,
        failed := sadd st.failed P }
      tk.dependency_group ("Dependency " ++ P ++ " failed: " ++ e) C tkc
      hC2 hgr htyC (by simpa using hmem)
    exact ⟨h1, h3, h4, h2⟩
  · intro limit t ht hd
    obtain ⟨dep, ha, hb, _⟩ := getBatch_consumer_satisfied st limit t ht hd
    exact ⟨dep, ha, hb⟩

/-! ### C8: producer/consumer scenario -/

def prodP : ImageTask :=
  { task_id := "P", job_id := "J", job_type := "batch",
    dependency_group := "g", dependency_type := "persona_first" }

def consC : ImageTask :=
  { task_id := "C", job_id := "J", job_type := "batch",
    dependency_group := "g", dependency_type := "persona_dependent" }

/-- Producer and consumer submitted, nothing pulled yet. -/
def depQueue0 : QueueState := submit (submit emptyQueue prodP) consC

/-- The state after the first pull and the producer's completion with
result "r1". -/
def depQueue1 : QueueState :=
  markComplete (getBatch depQueue0 10).1 "P" "r1"

/-- C8: a consumer is never returned by a pull while its group's dependency
record is unsatisfied, and a returned consumer carries the recorded result
as its persona reference.  Concretely: with producer `P` and consumer `C`
in group "g", `pull(10)` returns only `P`; after `complete(P, "r1")` the
next `pull(10)` returns `C` with `persona_reference_path = "r1"`. -/
theorem consumer_gated_until_producer_completes
    (st : QueueState) (limit : Nat) :
    (∀ t, t ∈ (getBatch st limit).2 →
      t.dependency_type = "persona_dependent" →
      ∃ dep, aget st.deps t.dependency_group = some dep ∧
        dep.completed = true ∧
        t.persona_reference_path = dep.result_path) ∧
    ((getBatch depQueue0 10).2.map ImageTask.task_id = ["P"] ∧
     (getBatch depQueue1 10).2.map ImageTask.task_id = ["C"] ∧
     (getBatch depQueue1 10).2.map ImageTask.persona_reference_path
       = ["r1"]) :=
  ⟨fun t ht hd => getBatch_consumer_satisfied st limit t ht hd,
   by decide, by decide, by decide⟩

/-- The consumer returned by the post-completion pull. -/
def pulledC : ImageTask := ((getBatch depQueue1 10).2).headI

theorem consumer_gated_witness :
    ∃ dep, aget depQueue1.deps pulledC.dependency_group = some dep ∧
      dep.completed = true ∧
      pulledC.persona_reference_path = dep.result_path :=
  (consumer_gated_until_producer_completes depQueue1 10).1 pulledC
    (by
      rw [show (getBatch depQueue1 10).2 = [pulledC] from rfl]
      exact List.mem_singleton.mpr rfl)
    (by decide)

theorem producer_failure_cascades_witness :
    "C" ∈ (markFailed (getBatch depQueue0 1).1 "P" "boom" false true).failed ∧
    getTask (markFailed (getBatch depQueue0 1).1 "P" "boom" false true) "C"
      = some { consC with
               created_at := "1",
               last_error := "Dependency P failed: boom" } := by
  have h := (producer_failure_cascades (getBatch depQueue0 1).1 "P" "boom"
      { prodP with created_at := "0", started_at := "2" } false true
      rfl rfl (Or.inl rfl)).1 "C" { consC with created_at := "1" }
      rfl rfl rfl (Or.inl (by decide))
  exact ⟨h.1, by simpa using h.2.2.2⟩

/-! ### C4: reap and the failed set -/

/-- A queue whose pending set holds an orphaned membership entry
(no backing task data). -/
def orphanQueue : QueueState :=
  { emptyQueue with pending := [("X", 0)] }

theorem zmem_zrem_self (z : List (String × Nat)) (id : String) :
    zmem (zrem z id) id = false := by
  rw [← Bool.not_eq_true]
  intro h
  rw [zmem_iff] at h
  exact ((mem_zrem_iff _ _ _).mp h).2 rfl

theorem smem_srem_self (s : List String) (id : String) :
    smem (srem s id) id = false := by
  rw [← Bool.not_eq_true]
  intro h
  have : id ∈ srem s id := by simpa [smem] using h
  exact ((mem_srem_iff _ _ _).mp this).2 rfl

theorem zmem_zrem_none (z : List (String × Nat)) (i j : String)
    (h : zmem z j = false) : zmem (zrem z i) j = false := by
  rw [← Bool.not_eq_true] at h ⊢
  intro hcon
  rw [zmem_iff] at hcon
  exact h ((zmem_iff _ _).mpr ((mem_zrem_iff _ _ _).mp hcon).1)

theorem smem_srem_none (s : List String) (i j : String)
    (h : smem s j = false) : smem (srem s i) j = false := by
  rw [← Bool.not_eq_true] at h ⊢
  intro hcon
  have : j ∈ srem s i := by simpa [smem] using hcon
  exact h (by simpa [smem] using ((mem_srem_iff _ _ _).mp this).1)

theorem memQ_removeFromQueue_self (s : QueueState) (q : QKind)
    (id : String) : memQ (removeFromQueue s q id) q id = false := by
  cases q <;>
    simp [memQ, removeFromQueue, zmem_zrem_self, smem_srem_self]

theorem memQ_removeFromQueue_none (s : QueueState) (q : QKind)
    (i j : String) (h : memQ s q j = false) :
    memQ (removeFromQueue s q i) q j = false := by
  cases q <;>
    simp only [memQ, removeFromQueue] <;>
    first
      | exact zmem_zrem_none _ _ _ (by simpa [memQ] using h)
      | exact smem_srem_none _ _ _ (by simpa [memQ] using h)

theorem removeFromQueue_failed (s : QueueState) (q : QKind) (i : String) :
    (removeFromQueue s q i).failed = s.failed := by
  cases q <;> rfl

theorem removeFromQueue_taskData (s : QueueState) (q : QKind) (i : String) :
    (removeFromQueue s q i).taskData = s.taskData := by
  cases q <;> rfl

theorem removeTaskCompletely_failed (s : QueueState) (q : QKind)
    (i : String) :
    (removeTaskCompletely s q i).failed = sadd s.failed i := by
  cases q <;> rfl

theorem memQ_removeTaskCompletely_self (s : QueueState) (q : QKind)
    (id : String) : memQ (removeTaskCompletely s q id) q id = false := by
  cases q <;>
    simp [memQ, removeTaskCompletely, removeFromQueue, zmem_zrem_self,
      smem_srem_self]

theorem memQ_removeTaskCompletely_none (s : QueueState) (q : QKind)
    (i j : String) (h : memQ s q j = false) :
    memQ (removeTaskCompletely s q i) q j = false := by
  cases q
  · exact zmem_zrem_none _ _ _ (by simpa [memQ] using h)
  · exact zmem_zrem_none _ _ _ (by simpa [memQ] using h)
  · exact smem_srem_none _ _ _ (by simpa [memQ] using h)

theorem removeTaskCompletely_data_ne (s : QueueState) (q : QKind)
    (i j : String) (h : i ≠ j) :
    aget (removeTaskCompletely s q i).taskData j = aget s.taskData j := by
  cases q <;> exact aget_adel_ne _ _ _ (Ne.symm h)

theorem cleanupStep_eq (q : QKind) (now : Nat) (fs : String → Bool)
    (s : QueueState) (n : Nat) (id : String) :
    cleanupStep q now fs (s, n) id =
      (match getTask s id with
       | none => (removeFromQueue s q id, n + 1)
       | some task =>
         if task.reference_image_path != "" && !(fs task.reference_image_path)
             then (removeTaskCompletely s q id, n + 1)
         else if task.created_at != "" then
           match getTaskAgeSeconds now task.created_at with
           | some age =>
             if age > staleSeconds q then (removeTaskCompletely s q id, n + 1)
             else (s, n)
           | none => (s, n)
         else (s, n)) := rfl

/-- One cleanup step keeps an id that is already failed and out of its
queue in that situation. -/
theorem cleanupStep_post (q : QKind) (now : Nat) (fs : String → Bool)
    (acc : QueueState × Nat) (i id : String)
    (hf : id ∈ acc.1.failed) (hq : memQ acc.1 q id = false) :
    id ∈ (cleanupStep q now fs acc i).1.failed ∧
    memQ (cleanupStep q now fs acc i).1 q id = false := by
  obtain ⟨s, n⟩ := acc
  rw [cleanupStep_eq]
  split
  · exact ⟨by rw [removeFromQueue_failed]; exact hf,
      memQ_removeFromQueue_none s q i id hq⟩
  · split
    · refine ⟨?_, memQ_removeTaskCompletely_none s q i id hq⟩
      rw [removeTaskCompletely_failed]
      exact (mem_sadd_iff _ _ _).mpr (Or.inl hf)
    · split
      · split
        · split
          · refine ⟨?_, memQ_removeTaskCompletely_none s q i id hq⟩
            rw [removeTaskCompletely_failed]
            exact (mem_sadd_iff _ _ _).mpr (Or.inl hf)
          · exact ⟨hf, hq⟩
        · exact ⟨hf, hq⟩
      · exact ⟨hf, hq⟩

theorem cleanupFold_post (q : QKind) (now : Nat) (fs : String → Bool)
    (ids : List String) (acc : QueueState × Nat) (id : String)
    (hf : id ∈ acc.1.failed) (hq : memQ acc.1 q id = false) :
    id ∈ (ids.foldl (cleanupStep q now fs) acc).1.failed ∧
    memQ (ids.foldl (cleanupStep q now fs) acc).1 q id = false := by
  induction ids generalizing acc with
  | nil => exact ⟨hf, hq⟩
  | cons i rest ih =>
    rw [List.foldl_cons]
    obtain ⟨hf2, hq2⟩ := cleanupStep_post q now fs acc i id hf hq
    exact ih _ hf2 hq2

theorem cleanupStep_data_ne (q : QKind) (now : Nat) (fs : String → Bool)
    (acc : QueueState × Nat) (i id : String) (h : i ≠ id) :
    aget (cleanupStep q now fs acc i).1.taskData id
      = aget acc.1.taskData id := by
  obtain ⟨s, n⟩ := acc
  rw [cleanupStep_eq]
  split
  · rw [removeFromQueue_taskData]
  · split
    · exact removeTaskCompletely_data_ne s q i id h
    · split
      · split
        · split
          · exact removeTaskCompletely_data_ne s q i id h
          · rfl
        · rfl
      · rfl

theorem cleanupStep_memQ_none (q : QKind) (now : Nat) (fs : String → Bool)
    (acc : QueueState × Nat) (i id : String)
    (hq : memQ acc.1 q id = false) :
    memQ (cleanupStep q now fs acc i).1 q id = false := by
  obtain ⟨s, n⟩ := acc
  rw [cleanupStep_eq]
  split
  · exact memQ_removeFromQueue_none s q i id hq
  · split
    · exact memQ_removeTaskCompletely_none s q i id hq
    · split
      · split
        · split
          · exact memQ_removeTaskCompletely_none s q i id hq
          · exact hq
        · exact hq
      · exact hq

theorem cleanupFold_memQ_none (q : QKind) (now : Nat) (fs : String → Bool)
    (ids : List String) (acc : QueueState × Nat) (id : String)
    (hq : memQ acc.1 q id = false) :
    memQ (ids.foldl (cleanupStep q now fs) acc).1 q id = false := by
  induction ids generalizing acc with
  | nil => exact hq
  | cons i rest ih =>
    rw [List.foldl_cons]
    exact ih _ (cleanupStep_memQ_none q now fs acc i id hq)

theorem cleanupStep_failed_ne (q : QKind) (now : Nat) (fs : String → Bool)
    (acc : QueueState × Nat) (i id : String) (h : i ≠ id) :
    (id ∈ (cleanupStep q now fs acc i).1.failed ↔ id ∈ acc.1.failed) := by
  obtain ⟨s, n⟩ := acc
  rw [cleanupStep_eq]
  split
  · rw [removeFromQueue_failed]
  · split
    · rw [removeTaskCompletely_failed, mem_sadd_iff]
      constructor
      · rintro (hmem | rfl)
        · exact hmem
        · exact absurd rfl h
      · exact Or.inl
    · split
      · split
        · split
          · rw [removeTaskCompletely_failed, mem_sadd_iff]
            constructor
            · rintro (hmem | rfl)
              · exact hmem
              · exact absurd rfl h
            · exact Or.inl
          · exact Iff.rfl
        · exact Iff.rfl
      · exact Iff.rfl

/-- Reap hit: an id in the scanned snapshot whose stored task matches the
missing-file criterion or the staleness criterion ends up failed and out of
its queue. -/
theorem cleanupFold_hits (q : QKind) (now : Nat) (fs : String → Bool)
    (ids : List String) (acc : QueueState × Nat) (id : String)
    (tk : ImageTask)
    (hin : id ∈ ids)
    (hdata : aget acc.1.taskData id = some tk)
    (hcond : (tk.reference_image_path != ""
        && !(fs tk.reference_image_path)) = true ∨
      ((tk.reference_image_path != ""
          && !(fs tk.reference_image_path)) = false ∧
        (tk.created_at != "") = true ∧
        ∃ age, getTaskAgeSeconds now tk.created_at = some age ∧
          age > staleSeconds q)) :
    id ∈ (ids.foldl (cleanupStep q now fs) acc).1.failed ∧
    memQ (ids.foldl (cleanupStep q now fs) acc).1 q id = false := by
  induction ids generalizing acc with
  | nil => cases hin
  | cons i rest ih =>
    rw [List.foldl_cons]
    by_cases hic : i = id
    · subst hic
      have hstep : i ∈ (cleanupStep q now fs acc i).1.failed ∧
          memQ (cleanupStep q now fs acc i).1 q i = false := by
        obtain ⟨s, n⟩ := acc
        rw [cleanupStep_eq]
        rw [show getTask s i = some tk from hdata]
        cases hcond with
        | inl hmf =>
          simp only [hmf, if_true]
          refine ⟨?_, memQ_removeTaskCompletely_self s q i⟩
          rw [removeTaskCompletely_failed]
          exact (mem_sadd_iff _ _ _).mpr (Or.inr rfl)
        | inr hstale =>
          obtain ⟨hnm, hca, age, hage, hgt⟩ := hstale
          simp only [hnm, hca, hage, if_true, Bool.false_eq_true, if_false,
            hgt]
          refine ⟨?_, memQ_removeTaskCompletely_self s q i⟩
          rw [removeTaskCompletely_failed]
          exact (mem_sadd_iff _ _ _).mpr (Or.inr rfl)
      exact cleanupFold_post q now fs rest _ i hstep.1 hstep.2
    · have hdata' : aget (cleanupStep q now fs acc i).1.taskData id
          = some tk := by
        rw [cleanupStep_data_ne q now fs acc i id hic]
        exact hdata
      cases List.mem_cons.mp hin with
      | inl h => exact absurd h.symm hic
      | inr hrest => exact ih _ hrest hdata'

/-- Reap of an orphaned entry: the id leaves its queue but the failed set
is unchanged at that id. -/
theorem cleanupFold_orphan (q : QKind) (now : Nat) (fs : String → Bool)
    (ids : List String) (acc : QueueState × Nat) (id : String)
    (hdata : aget acc.1.taskData id = none) :
    ((id ∈ (ids.foldl (cleanupStep q now fs) acc).1.failed)
        ↔ id ∈ acc.1.failed) ∧
    (id ∈ ids → memQ (ids.foldl (cleanupStep q now fs) acc).1 q id
        = false) := by
  induction ids generalizing acc with
  | nil =>
    exact ⟨Iff.rfl, fun h => absurd h (List.not_mem_nil id)⟩
  | cons i rest ih =>
    rw [List.foldl_cons]
    by_cases hic : i = id
    · subst hic
      have hstepEq : cleanupStep q now fs acc i
          = (removeFromQueue acc.1 q i, acc.2 + 1) := by
        obtain ⟨s, n⟩ := acc
        rw [cleanupStep_eq]
        rw [show getTask s i = none from hdata]
      have hdata' : aget (cleanupStep q now fs acc i).1.taskData i = none :=
        by rw [hstepEq, removeFromQueue_taskData]; exact hdata
      obtain ⟨ihf, ihq⟩ := ih _ hdata'
      refine ⟨?_, fun _ => ?_⟩
      · rw [ihf, hstepEq, removeFromQueue_failed]
      · exact cleanupFold_memQ_none q now fs rest _ i
          (by rw [hstepEq]; exact memQ_removeFromQueue_self acc.1 q i)
    · have hdata' : aget (cleanupStep q now fs acc i).1.taskData id = none :=
        by rw [cleanupStep_data_ne q now fs acc i id hic]; exact hdata
      obtain ⟨ihf, ihq⟩ := ih _ hdata'
      refine ⟨?_, fun hmem => ?_⟩
      · rw [ihf, cleanupStep_failed_ne q now fs acc i id hic]
      · cases List.mem_cons.mp hmem with
        | inl h => exact absurd h.symm hic
        | inr hrest => exact ihq hrest

/-- C4 counterexample: the orphaned pending entry "X" (no task data) is
reaped — one task cleaned, removed from pending — yet is NOT added to
the failed set, contradicting "no reaped task is removed from its queue
without being recorded as failed". -/
theorem cleanup_orphan_counterexample :
    (cleanupAllQueues orphanQueue 0 (fun _ => true)).2 = 1 ∧
    zmem (cleanupAllQueues orphanQueue 0 (fun _ => true)).1.pending "X"
      = false ∧
    "X" ∉ (cleanupAllQueues orphanQueue 0 (fun _ => true)).1.failed :=
  ⟨rfl, rfl, by decide⟩

/-- C4 (amended): a task reaped because its referenced input file no longer
exists, or because it exceeds its per-state staleness threshold, is removed
from its queue and added to the failed set; an orphaned membership entry
(lacking backing task data) is removed from its queue WITHOUT being
recorded as failed — its failed-set membership is unchanged. -/
theorem cleanup_reap_spec (st : QueueState) (q : QKind) (now : Nat)
    (fs : String → Bool) (id : String) :
    (∀ tk : ImageTask, id ∈ queueIdsOf st q →
      aget st.taskData id = some tk →
      ((tk.reference_image_path != ""
          && !(fs tk.reference_image_path)) = true ∨
        ((tk.reference_image_path != ""
            && !(fs tk.reference_image_path)) = false ∧
          (tk.created_at != "") = true ∧
          ∃ age, getTaskAgeSeconds now tk.created_at = some age ∧
            age > staleSeconds q)) →
      id ∈ (cleanupQueueByCriteria st q now fs).1.failed ∧
      memQ (cleanupQueueByCriteria st q now fs).1 q id = false) ∧
    (aget st.taskData id = none →
      ((id ∈ (cleanupQueueByCriteria st q now fs).1.failed ↔
          id ∈ st.failed) ∧
        (id ∈ queueIdsOf st q →
          memQ (cleanupQueueByCriteria st q now fs).1 q id = false))) := by
  constructor
  · intro tk hin hdata hcond
    exact cleanupFold_hits q now fs (queueIdsOf st q) (st, 0) id tk
      hin hdata hcond
  · intro hnone
    exact cleanupFold_orphan q now fs (queueIdsOf st q) (st, 0) id hnone

/-- A queue holding one pending task whose reference image is missing. -/
def missingFileQueue : QueueState :=
  { emptyQueue with
    pending := [("Y", 0)],
    taskData := [("Y", { taskT with
      task_id := "Y", reference_image_path := "/img.png",
      created_at := "0" })] }

theorem cleanup_reap_spec_witness :
    "Y" ∈ (cleanupQueueByCriteria missingFileQueue QKind.qpending 0
        (fun _ => false)).1.failed ∧
    memQ (cleanupQueueByCriteria missingFileQueue QKind.qpending 0
        (fun _ => false)).1 QKind.qpending "Y" = false :=
  (cleanup_reap_spec missingFileQueue QKind.qpending 0 (fun _ => false)
      "Y").1
    { taskT with
      task_id := "Y", reference_image_path := "/img.png",
      created_at := "0" }
    (by decide) rfl (Or.inl (by decide))

/-! ### C5: the five membership sets -/

/-- In how many of the five membership sets does `id` appear? -/
def inCount (st : QueueState) (id : String) : Nat :=
  (if zmem st.pending id then 1 else 0) +
  (if smem st.processing id then 1 else 0) +
  (if zmem st.retry id then 1 else 0) +
  (if smem st.completed id then 1 else 0) +
  (if smem st.failed id then 1 else 0)

/-- Mutual exclusivity of the five sets: no id is in two of them. -/
def StateDisjoint (st : QueueState) : Prop := ∀ id, inCount st id ≤ 1

theorem smem_iff (s : List String) (id : String) :
    smem s id = true ↔ id ∈ s := by
  simp [smem]

/-- The queue after submitting "T" and cancelling its job. -/
def cancelledQueue : QueueState :=
  (cancelJob (submit emptyQueue taskT) "J").1

/-- C5 counterexample: after `cancel_job`, the submitted task "T" is still
registered for job "J" but belongs to NONE of the five membership sets —
the claimed "exactly one set" partition does not survive `cancel`. -/
theorem partition_cancel_counterexample :
    (∃ ids, aget cancelledQueue.jobTasks "J" = some ids ∧ "T" ∈ ids) ∧
    inCount cancelledQueue "T" = 0 :=
  ⟨⟨["T"], rfl, by decide⟩, rfl⟩

theorem zmem_zadd_self (z : List (String × Nat)) (id : String) (sc : Nat) :
    zmem (zadd z id sc) id = true := by
  rw [zmem_iff]
  exact (mem_zadd_iff _ _ _ _).mpr (Or.inr rfl)

theorem zmem_zadd_ne (z : List (String × Nat)) (id j : String) (sc : Nat)
    (h : j ≠ id) : zmem (zadd z id sc) j = zmem z j := by
  cases hz : zmem z j with
  | true =>
    rw [zmem_iff] at hz ⊢
    exact (mem_zadd_iff _ _ _ _).mpr (Or.inl ⟨hz, h⟩)
  | false =>
    rw [← Bool.not_eq_true] at hz ⊢
    rw [zmem_iff] at hz ⊢
    intro hcon
    rcases (mem_zadd_iff _ _ _ _).mp hcon with ⟨hmem, _⟩ | heq
    · exact hz hmem
    · exact h heq

theorem zmem_zrem_ne (z : List (String × Nat)) (id j : String)
    (h : j ≠ id) : zmem (zrem z id) j = zmem z j := by
  cases hz : zmem z j with
  | true =>
    rw [zmem_iff] at hz ⊢
    exact (mem_zrem_iff _ _ _).mpr ⟨hz, h⟩
  | false => exact zmem_zrem_none z id j hz

theorem smem_sadd_self (s : List String) (id : String) :
    smem (sadd s id) id = true := by
  rw [smem_iff]
  exact (mem_sadd_iff _ _ _).mpr (Or.inr rfl)

theorem smem_sadd_ne (s : List String) (id j : String) (h : j ≠ id) :
    smem (sadd s id) j = smem s j := by
  cases hz : smem s j with
  | true =>
    rw [smem_iff] at hz ⊢
    exact (mem_sadd_iff _ _ _).mpr (Or.inl hz)
  | false =>
    rw [← Bool.not_eq_true] at hz ⊢
    rw [smem_iff] at hz ⊢
    intro hcon
    rcases (mem_sadd_iff _ _ _).mp hcon with hmem | heq
    · exact hz hmem
    · exact h heq

theorem smem_srem_ne (s : List String) (id j : String) (h : j ≠ id) :
    smem (srem s id) j = smem s j := by
  cases hz : smem s j with
  | true =>
    rw [smem_iff] at hz ⊢
    exact (mem_srem_iff _ _ _).mpr ⟨hz, h⟩
  | false => exact smem_srem_none s id j hz

/-- If an id is in one of the five sets of a mutually exclusive state, it
is in none of the others. -/
theorem disjoint_extract (st : QueueState) (i : String)
    (h : inCount st i ≤ 1) :
    (zmem st.pending i = true → smem st.processing i = false ∧
      zmem st.retry i = false ∧ smem st.completed i = false ∧
      smem st.failed i = false) ∧
    (smem st.processing i = true → zmem st.pending i = false ∧
      zmem st.retry i = false ∧ smem st.completed i = false ∧
      smem st.failed i = false) ∧
    (zmem st.retry i = true → zmem st.pending i = false ∧
      smem st.processing i = false ∧ smem st.completed i = false ∧
      smem st.failed i = false) ∧
    (smem st.failed i = true → zmem st.pending i = false ∧
      smem st.processing i = false ∧ zmem st.retry i = false ∧
      smem st.completed i = false) := by
  unfold inCount at h
  split_ifs at h <;> simp_all

theorem inCount_congr (st st' : QueueState) (id : String)
    (h1 : zmem st'.pending id = zmem st.pending id)
    (h2 : smem st'.processing id = smem st.processing id)
    (h3 : zmem st'.retry id = zmem st.retry id)
    (h4 : smem st'.completed id = smem st.completed id)
    (h5 : smem st'.failed id = smem st.failed id) :
    inCount st' id = inCount st id := by
  unfold inCount
  rw [h1, h2, h3, h4, h5]

theorem inCount_zero (st : QueueState) (id : String)
    (h : inCount st id = 0) :
    zmem st.pending id = false ∧ smem st.processing id = false ∧
    zmem st.retry id = false ∧ smem st.completed id = false ∧
    smem st.failed id = false := by
  unfold inCount at h
  split_ifs at h <;> simp_all

/-- The five membership sets after `submit`. -/
theorem submit_memb (st : QueueState) (t : ImageTask) :
    (submit st t).pending = zadd st.pending t.task_id st.clock ∧
    (submit st t).processing = st.processing ∧
    (submit st t).retry = st.retry ∧
    (submit st t).completed = st.completed ∧
    (submit st t).failed = st.failed := by
  unfold submit
  by_cases h : (({ t with created_at := toString st.clock } :
      ImageTask).dependency_type == "persona_first") = true <;>
    simp [h]

theorem submit_disjoint (st : QueueState) (t : ImageTask)
    (hd : StateDisjoint st) (h0 : inCount st t.task_id = 0) :
    StateDisjoint (submit st t) := by
  obtain ⟨hp, hpr, hr, hc, hf⟩ := submit_memb st t
  intro id
  by_cases hid : id = t.task_id
  · subst hid
    obtain ⟨f1, f2, f3, f4, f5⟩ := inCount_zero st t.task_id h0
    unfold inCount
    rw [hp, hpr, hr, hc, hf, zmem_zadd_self, f2, f3, f4, f5]
    simp
  · have : inCount (submit st t) id = inCount st id := by
      apply inCount_congr
      · rw [hp]; exact zmem_zadd_ne _ _ _ _ hid
      · rw [hpr]
      · rw [hr]
      · rw [hc]
      · rw [hf]
    rw [this]
    exact hd id

theorem mem_zrangeFromZero (z : List (String × Nat)) (stop : Int)
    (j : String) (h : j ∈ zrangeFromZero z stop) : zmem z j = true := by
  unfold zrangeFromZero at h
  rw [zmem_iff]
  split at h <;> exact List.take_subset _ _ h

theorem disjoint_clock (st : QueueState) (c : Nat)
    (h : StateDisjoint st) : StateDisjoint { st with clock := c } := by
  intro id
  have := h id
  unfold inCount at *
  simpa using this

/-- The pull loop preserves mutual exclusivity: every scanned id is (still)
in its source queue or already in processing, and an accepted id moves from
the source queue into processing. -/
theorem processQueueIds_disjoint (b : Bool) (limit : Nat)
    (ids : List String) (st : QueueState) (acc : List ImageTask)
    (hd : StateDisjoint st)
    (hsrc : ∀ j ∈ ids,
      (if b then zmem st.retry j else zmem st.pending j) = true ∨
      smem st.processing j = true) :
    StateDisjoint (processQueueIds b limit ids st acc).1 := by
  induction ids generalizing st acc with
  | nil => exact hd
  | cons i rest ih =>
    rw [processQueueIds]
    split
    · exact hd
    · split
      · exact ih st acc hd (fun j hj => hsrc j (List.mem_cons_of_mem i hj))
      · split
        · exact ih st acc hd
            (fun j hj => hsrc j (List.mem_cons_of_mem i hj))
        · apply ih
          · intro k
            have hsrci := hsrc i (List.mem_cons_self i rest)
            by_cases hk : k = i
            · subst hk
              cases b with
              | true =>
                rcases hsrci with hret | hproc
                · rw [if_pos rfl] at hret
                  obtain ⟨o1, o2, o3, o4⟩ :=
                    (disjoint_extract st k (hd k)).2.2.1 hret
                  unfold inCount
                  simp [o1, o3, o4, zmem_zrem_self, smem_sadd_self]
                · obtain ⟨o1, o2, o3, o4⟩ :=
                    (disjoint_extract st k (hd k)).2.1 hproc
                  unfold inCount
                  simp [o1, o3, o4, zmem_zrem_self, smem_sadd_self]
              | false =>
                rcases hsrci with hpend | hproc
                · rw [if_neg (by simp)] at hpend
                  obtain ⟨o1, o2, o3, o4⟩ :=
                    (disjoint_extract st k (hd k)).1 hpend
                  unfold inCount
                  simp [o2, o3, o4, zmem_zrem_self, smem_sadd_self]
                · obtain ⟨o1, o2, o3, o4⟩ :=
                    (disjoint_extract st k (hd k)).2.1 hproc
                  unfold inCount
                  simp [o2, o3, o4, zmem_zrem_self, smem_sadd_self]
            · have hcongr : inCount
                  { pending := if b then st.pending else zrem st.pending i,
                    processing := sadd st.processing i,
                    retry := if b then zrem st.retry i else st.retry,
                    completed := st.completed,
                    failed := st.failed,
                    taskData := st.taskData,
                    deps := st.deps,
                    jobTasks := st.jobTasks,
                    results := st.results,
                    clock := st.clock } k = inCount st k := by
                apply inCount_congr
                · cases b <;> simp [zmem_zrem_ne _ _ _ hk]
                · simpa using smem_sadd_ne _ _ _ hk
                · cases b <;> simp [zmem_zrem_ne _ _ _ hk]
                · rfl
                · rfl
              have hle := hd k
              unfold inCount at hcongr hle ⊢
              simp only [] at hcongr ⊢
              omega
          · intro j hj
            by_cases hji : j = i
            · subst hji
              right
              simpa using smem_sadd_self st.processing j
            · rcases hsrc j (List.mem_cons_of_mem i hj) with hsj | hpj
              · left
                cases b <;> simpa [zmem_zrem_ne _ _ _ hji] using hsj
              · right
                simpa [smem_sadd_ne _ _ _ hji] using hpj

theorem getBatch_fst (st : QueueState) (limit : Nat) :
    (getBatch st limit).1 =
      (let r1 := processQueueIds true limit
          (zrangeFromZero st.retry ((limit : Int) - 1)) st []
       let remaining := limit - r1.2.length
       let r2 := if remaining > 0 then
           processQueueIds false limit
             (zrangeFromZero r1.1.pending ((remaining : Int) * 2)) r1.1 r1.2
         else r1
       { r2.1 with clock := r2.1.clock + 1 }) := rfl

/-- Pulling a batch preserves mutual exclusivity of the five sets. -/
theorem getBatch_disjoint (st : QueueState) (limit : Nat)
    (hd : StateDisjoint st) : StateDisjoint (getBatch st limit).1 := by
  have h1 : StateDisjoint (processQueueIds true limit
      (zrangeFromZero st.retry ((limit : Int) - 1)) st []).1 :=
    processQueueIds_disjoint true limit _ st [] hd
      (fun j hj => Or.inl (by simpa using mem_zrangeFromZero _ _ _ hj))
  rw [getBatch_fst]
  apply disjoint_clock
  by_cases hrem : limit -
      (processQueueIds true limit
        (zrangeFromZero st.retry ((limit : Int) - 1)) st []).2.length > 0
  · rw [if_pos hrem]
    apply processQueueIds_disjoint _ _ _ _ _ h1
    intro j hj
    exact Or.inl (by simpa using mem_zrangeFromZero _ _ _ hj)
  · rw [if_neg hrem]
    exact h1

/-- A cascade step that finds a matching dependent task moves it from its
queue to failed. -/
theorem cascadeStep_hit (group err : String) (s : QueueState) (i : String)
    (task : ImageTask) (hget : getTask s i = some task)
    (hm : (task.dependency_group == group &&
      task.dependency_type == "persona_dependent") = true) :
    cascadeStep group err true s i =
      { s with
        pending := zrem s.pending i,
        failed := sadd s.failed i,
        taskData := aset s.taskData i { task with last_error := err } } ∧
    cascadeStep group err false s i =
      { s with
        retry := zrem s.retry i,
        failed := sadd s.failed i,
        taskData := aset s.taskData i { task with last_error := err } } := by
  unfold cascadeStep
  rw [hget]
  dsimp only []
  refine ⟨?_, ?_⟩ <;> rw [if_pos hm] <;> rfl

theorem cascadeStep_miss (group err : String) (b : Bool) (s : QueueState)
    (i : String)
    (h : ∀ task, getTask s i = some task →
      (task.dependency_group == group &&
        task.dependency_type == "persona_dependent") = false) :
    cascadeStep group err b s i = s := by
  unfold cascadeStep
  cases hget : getTask s i with
  | none => rfl
  | some task => simp [h task hget]

/-- The pending-side cascade pass preserves mutual exclusivity when every
scanned id is still pending or already failed. -/
theorem cascadeFoldP_disjoint (group err : String) (ids : List String)
    (s : QueueState) (hd : StateDisjoint s)
    (hsrc : ∀ j ∈ ids, zmem s.pending j = true ∨ smem s.failed j = true) :
    StateDisjoint (ids.foldl (cascadeStep group err true) s) := by
  induction ids generalizing s with
  | nil => exact hd
  | cons i rest ih =>
    rw [List.foldl_cons]
    have hi := hsrc i (List.mem_cons_self i rest)
    by_cases hhit : ∃ task, getTask s i = some task ∧
        (task.dependency_group == group &&
          task.dependency_type == "persona_dependent") = true
    · obtain ⟨task, hget, hm⟩ := hhit
      rw [(cascadeStep_hit group err s i task hget hm).1]
      apply ih
      · intro k
        by_cases hk : k = i
        · subst hk
          unfold inCount
          rcases hi with hpend | hfail
          · obtain ⟨o1, o2, o3, o4⟩ := (disjoint_extract s k (hd k)).1 hpend
            simp [o1, o2, o3, zmem_zrem_self, smem_sadd_self]
          · obtain ⟨o1, o2, o3, o4⟩ :=
              (disjoint_extract s k (hd k)).2.2.2 hfail
            simp [o2, o3, o4, zmem_zrem_self, smem_sadd_self]
        · have hck : inCount
              { s with
                pending := zrem s.pending i,
                failed := sadd s.failed i,
                taskData := aset s.taskData i { task with last_error := err } }
              k = inCount s k :=
            inCount_congr s _ k (zmem_zrem_ne _ _ _ hk) rfl rfl rfl
              (smem_sadd_ne _ _ _ hk)
          rw [hck]
          exact hd k
      · intro j hj
        by_cases hji : j = i
        · subst hji
          exact Or.inr (smem_sadd_self s.failed j)
        · rcases hsrc j (List.mem_cons_of_mem i hj) with hpj | hfj
          · refine Or.inl ?_
            show zmem (zrem s.pending i) j = true
            rw [zmem_zrem_ne _ _ _ hji]
            exact hpj
          · refine Or.inr ?_
            show smem (sadd s.failed i) j = true
            rw [smem_sadd_ne _ _ _ hji]
            exact hfj
    · have hmiss : ∀ task, getTask s i = some task →
          (task.dependency_group == group &&
            task.dependency_type == "persona_dependent") = false := by
        intro task hget
        cases hc : (task.dependency_group == group &&
            task.dependency_type == "persona_dependent") with
        | true => exact absurd ⟨task, hget, hc⟩ hhit
        | false => rfl
      rw [cascadeStep_miss group err true s i hmiss]
      exact ih s hd (fun j hj => hsrc j (List.mem_cons_of_mem i hj))

/-- The retry-side cascade pass preserves mutual exclusivity when every
scanned id is still in retry or already failed. -/
theorem cascadeFoldR_disjoint (group err : String) (ids : List String)
    (s : QueueState) (hd : StateDisjoint s)
    (hsrc : ∀ j ∈ ids, zmem s.retry j = true ∨ smem s.failed j = true) :
    StateDisjoint (ids.foldl (cascadeStep group err false) s) := by
  induction ids generalizing s with
  | nil => exact hd
  | cons i rest ih =>
    rw [List.foldl_cons]
    have hi := hsrc i (List.mem_cons_self i rest)
    by_cases hhit : ∃ task, getTask s i = some task ∧
        (task.dependency_group == group &&
          task.dependency_type == "persona_dependent") = true
    · obtain ⟨task, hget, hm⟩ := hhit
      rw [(cascadeStep_hit group err s i task hget hm).2]
      apply ih
      · intro k
        by_cases hk : k = i
        · subst hk
          unfold inCount
          rcases hi with hret | hfail
          · obtain ⟨o1, o2, o3, o4⟩ :=
              (disjoint_extract s k (hd k)).2.2.1 hret
            simp [o1, o2, o3, zmem_zrem_self, smem_sadd_self]
          · obtain ⟨o1, o2, o3, o4⟩ :=
              (disjoint_extract s k (hd k)).2.2.2 hfail
            simp [o1, o2, o4, zmem_zrem_self, smem_sadd_self]
        · have hck : inCount
              { s with
                retry := zrem s.retry i,
                failed := sadd s.failed i,
                taskData := aset s.taskData i { task with last_error := err } }
              k = inCount s k :=
            inCount_congr s _ k rfl rfl (zmem_zrem_ne _ _ _ hk) rfl
              (smem_sadd_ne _ _ _ hk)
          rw [hck]
          exact hd k
      · intro j hj
        by_cases hji : j = i
        · subst hji
          exact Or.inr (smem_sadd_self s.failed j)
        · rcases hsrc j (List.mem_cons_of_mem i hj) with hrj | hfj
          · refine Or.inl ?_
            show zmem (zrem s.retry i) j = true
            rw [zmem_zrem_ne _ _ _ hji]
            exact hrj
          · refine Or.inr ?_
            show smem (sadd s.failed i) j = true
            rw [smem_sadd_ne _ _ _ hji]
            exact hfj
    · have hmiss : ∀ task, getTask s i = some task →
          (task.dependency_group == group &&
            task.dependency_type == "persona_dependent") = false := by
        intro task hget
        cases hc : (task.dependency_group == group &&
            task.dependency_type == "persona_dependent") with
        | true => exact absurd ⟨task, hget, hc⟩ hhit
        | false => rfl
      rw [cascadeStep_miss group err false s i hmiss]
      exact ih s hd (fun j hj => hsrc j (List.mem_cons_of_mem i hj))

/-- The producer-failure cascade preserves mutual exclusivity. -/
theorem failDependentTasks_disjoint (st : QueueState) (group err : String)
    (hd : StateDisjoint st) :
    StateDisjoint (failDependentTasks st group err) := by
  unfold failDependentTasks
  dsimp only []
  apply cascadeFoldR_disjoint
  · exact cascadeFoldP_disjoint group err _ st hd
      (fun j hj => Or.inl (mem_zrangeFromZero _ _ _ hj))
  · intro j hj
    exact Or.inl (mem_zrangeFromZero _ _ _ hj)

/-- The five membership sets after a successful `mark_complete`. -/
theorem markComplete_memb (st : QueueState) (tid rp : String)
    (task : ImageTask) (hget : getTask st tid = some task) :
    (markComplete st tid rp).pending = st.pending ∧
    (markComplete st tid rp).processing = srem st.processing tid ∧
    (markComplete st tid rp).retry = st.retry ∧
    (markComplete st tid rp).completed = sadd st.completed tid ∧
    (markComplete st tid rp).failed = st.failed := by
  unfold markComplete
  rw [hget]
  dsimp only []
  refine ⟨?_, ?_, ?_, ?_, ?_⟩ <;> (first | rfl | (split <;> rfl))

/-- `mark_complete` preserves mutual exclusivity provided the completed
task is not currently pending, in retry or failed. -/
theorem markComplete_disjoint (st : QueueState) (tid rp : String)
    (hd : StateDisjoint st)
    (hp : zmem st.pending tid = false)
    (hr : zmem st.retry tid = false)
    (hf : smem st.failed tid = false) :
    StateDisjoint (markComplete st tid rp) := by
  cases hget : getTask st tid with
  | none =>
    unfold markComplete
    rw [hget]
    exact hd
  | some task =>
    obtain ⟨h1, h2, h3, h4, h5⟩ := markComplete_memb st tid rp task hget
    intro k
    unfold inCount
    rw [h1, h2, h3, h4, h5]
    by_cases hk : k = tid
    · subst hk
      simp [hp, hr, hf, smem_srem_self, smem_sadd_self]
    · rw [smem_srem_ne _ _ _ hk, smem_sadd_ne _ _ _ hk]
      have := hd k
      unfold inCount at this
      exact this

theorem disjoint_clock_bump (X : QueueState) (c : Nat)
    (h : StateDisjoint X) :
    StateDisjoint ⟨X.pending, X.processing, X.retry, X.completed, X.failed,
      X.taskData, X.deps, X.jobTasks, X.results, c⟩ := by
  intro k
  have := h k
  unfold inCount at this ⊢
  exact this

/-- Moving `tid` out of processing into failed keeps the sets mutually
exclusive when `tid` is in none of pending, retry, completed. -/
theorem disjoint_to_failed (st : QueueState) (tid : String)
    (td : List (String × ImageTask)) (ck : Nat)
    (hd : StateDisjoint st)
    (hp : zmem st.pending tid = false)
    (hr : zmem st.retry tid = false)
    (hc : smem st.completed tid = false) :
    StateDisjoint ⟨st.pending, srem st.processing tid, st.retry,
      st.completed, sadd st.failed tid, td, st.deps, st.jobTasks,
      st.results, ck⟩ := by
  intro k
  by_cases hk : k = tid
  · subst hk
    unfold inCount
    simp [hp, hr, hc, smem_srem_self, smem_sadd_self]
  · have := hd k
    unfold inCount at this ⊢
    simp only [smem_srem_ne _ _ _ hk, smem_sadd_ne _ _ _ hk]
    exact this

/-- Moving `tid` out of processing into retry keeps the sets mutually
exclusive when `tid` is in none of pending, completed, failed. -/
theorem disjoint_to_retry (st : QueueState) (tid : String)
    (td : List (String × ImageTask)) (sc ck : Nat)
    (hd : StateDisjoint st)
    (hp : zmem st.pending tid = false)
    (hc : smem st.completed tid = false)
    (hf : smem st.failed tid = false) :
    StateDisjoint ⟨st.pending, srem st.processing tid,
      zadd st.retry tid sc, st.completed, st.failed, td, st.deps,
      st.jobTasks, st.results, ck⟩ := by
  intro k
  by_cases hk : k = tid
  · subst hk
    unfold inCount
    simp [hp, hc, hf, smem_srem_self, zmem_zadd_self]
  · have := hd k
    unfold inCount at this ⊢
    simp only [smem_srem_ne _ _ _ hk, zmem_zadd_ne _ _ _ _ hk]
    exact this

/-- `mark_failed` preserves mutual exclusivity provided the failed task is
not currently pending, in retry, completed or failed (i.e. it is in
processing or in no set at all). -/
theorem markFailed_disjoint (st : QueueState) (tid err : String)
    (rl perm : Bool) (hd : StateDisjoint st)
    (hp : zmem st.pending tid = false)
    (hr : zmem st.retry tid = false)
    (hc : smem st.completed tid = false)
    (hf : smem st.failed tid = false) :
    StateDisjoint (markFailed st tid err rl perm) := by
  cases hget : getTask st tid with
  | none =>
    unfold markFailed
    rw [hget]
    exact hd
  | some task =>
    rw [markFailed_eq st tid err task rl perm hget]
    dsimp only []
    by_cases hb : (!rl && !perm) = true
    · rw [if_pos hb]
      dsimp only []
      split
      · split
        · exact disjoint_clock_bump _ _ (failDependentTasks_disjoint _ _ _
            (disjoint_to_failed st tid _ _ hd hp hr hc))
        · exact disjoint_to_failed st tid _ _ hd hp hr hc
      · exact disjoint_to_retry st tid _ _ _ hd hp hc hf
    · rw [if_neg hb]
      split
      · split
        · exact disjoint_clock_bump _ _ (failDependentTasks_disjoint _ _ _
            (disjoint_to_failed st tid _ _ hd hp hr hc))
        · exact disjoint_to_failed st tid _ _ hd hp hr hc
      · exact disjoint_to_retry st tid _ _ _ hd hp hc hf

/-- One `cancel_job` loop step only removes memberships, so it preserves
mutual exclusivity. -/
theorem cancelStep_disjoint (s : QueueState) (c p : Nat) (id : String)
    (hd : StateDisjoint s) : StateDisjoint (cancelStep (s, c, p) id).1 := by
  unfold cancelStep
  dsimp only []
  split
  · intro k
    have := hd k
    unfold inCount at this ⊢
    by_cases hk : k = id
    · subst hk
      simp only [zmem_zrem_self]
      split_ifs at this ⊢ <;> omega
    · simp only [zmem_zrem_ne _ _ _ hk]
      exact this
  · split
    · intro k
      have := hd k
      unfold inCount at this ⊢
      by_cases hk : k = id
      · subst hk
        simp only [zmem_zrem_self]
        split_ifs at this ⊢ <;> omega
      · simp only [zmem_zrem_ne _ _ _ hk]
        exact this
    · split
      · exact hd
      · exact hd

theorem cancelFold_disjoint (ids : List String) (s : QueueState)
    (c p : Nat) (hd : StateDisjoint s) :
    StateDisjoint (ids.foldl cancelStep (s, c, p)).1 := by
  induction ids generalizing s c p with
  | nil => exact hd
  | cons i rest ih =>
    rw [List.foldl_cons]
    have h1 := cancelStep_disjoint s c p i hd
    exact ih (cancelStep (s, c, p) i).1 (cancelStep (s, c, p) i).2.1
      (cancelStep (s, c, p) i).2.2 h1

/-- `cancel_job` preserves mutual exclusivity (it only removes ids from
sets). -/
theorem cancelJob_disjoint (st : QueueState) (job : String)
    (hd : StateDisjoint st) : StateDisjoint (cancelJob st job).1 := by
  unfold cancelJob
  exact cancelFold_disjoint _ st 0 0 hd

theorem memQ_removeFromQueue_ne (s : QueueState) (q : QKind) (i j : String)
    (hj : j ≠ i) : memQ (removeFromQueue s q i) q j = memQ s q j := by
  cases q
  · exact zmem_zrem_ne _ _ _ hj
  · exact zmem_zrem_ne _ _ _ hj
  · exact smem_srem_ne _ _ _ hj

theorem memQ_removeTaskCompletely_ne (s : QueueState) (q : QKind)
    (i j : String) (hj : j ≠ i) :
    memQ (removeTaskCompletely s q i) q j = memQ s q j := by
  cases q
  · exact zmem_zrem_ne _ _ _ hj
  · exact zmem_zrem_ne _ _ _ hj
  · exact smem_srem_ne _ _ _ hj

/-- Removal from a queue never increases any membership count. -/
theorem inCount_removeFromQueue_le (s : QueueState) (q : QKind)
    (i k : String) :
    inCount (removeFromQueue s q i) k ≤ inCount s k := by
  cases q with
  | qpending =>
    unfold removeFromQueue inCount
    dsimp only []
    by_cases hk : k = i
    · subst hk
      simp only [zmem_zrem_self]
      split_ifs <;> simp_all
    · rw [zmem_zrem_ne _ _ _ hk]
  | qretry =>
    unfold removeFromQueue inCount
    dsimp only []
    by_cases hk : k = i
    · subst hk
      simp only [zmem_zrem_self]
      split_ifs <;> simp_all
    · rw [zmem_zrem_ne _ _ _ hk]
  | qprocessing =>
    unfold removeFromQueue inCount
    dsimp only []
    by_cases hk : k = i
    · subst hk
      simp only [smem_srem_self]
      split_ifs <;> simp_all
    · rw [smem_srem_ne _ _ _ hk]

/-- The reap move (queue → failed) keeps the sets mutually exclusive when
the reaped id is in the scanned queue or already failed. -/
theorem removeTaskCompletely_disjoint (s : QueueState) (q : QKind)
    (i : String) (hd : StateDisjoint s)
    (hi : memQ s q i = true ∨ smem s.failed i = true) :
    StateDisjoint (removeTaskCompletely s q i) := by
  cases q with
  | qpending =>
    unfold removeTaskCompletely removeFromQueue
    dsimp only []
    intro k
    by_cases hk : k = i
    · subst hk
      unfold inCount
      rcases hi with hq | hfl
      · obtain ⟨o1, o2, o3, o4⟩ := (disjoint_extract s k (hd k)).1 hq
        simp [o1, o2, o3, zmem_zrem_self, smem_sadd_self]
      · obtain ⟨o1, o2, o3, o4⟩ := (disjoint_extract s k (hd k)).2.2.2 hfl
        simp [o2, o3, o4, zmem_zrem_self, smem_sadd_self]
    · have := hd k
      unfold inCount at this ⊢
      simp only [zmem_zrem_ne _ _ _ hk, smem_sadd_ne _ _ _ hk]
      exact this
  | qretry =>
    unfold removeTaskCompletely removeFromQueue
    dsimp only []
    intro k
    by_cases hk : k = i
    · subst hk
      unfold inCount
      rcases hi with hq | hfl
      · obtain ⟨o1, o2, o3, o4⟩ := (disjoint_extract s k (hd k)).2.2.1 hq
        simp [o1, o2, o3, zmem_zrem_self, smem_sadd_self]
      · obtain ⟨o1, o2, o3, o4⟩ := (disjoint_extract s k (hd k)).2.2.2 hfl
        simp [o1, o2, o4, zmem_zrem_self, smem_sadd_self]
    · have := hd k
      unfold inCount at this ⊢
      simp only [zmem_zrem_ne _ _ _ hk, smem_sadd_ne _ _ _ hk]
      exact this
  | qprocessing =>
    unfold removeTaskCompletely removeFromQueue
    dsimp only []
    intro k
    by_cases hk : k = i
    · subst hk
      unfold inCount
      rcases hi with hq | hfl
      · obtain ⟨o1, o2, o3, o4⟩ := (disjoint_extract s k (hd k)).2.1 hq
        simp [o1, o2, o3, smem_srem_self, smem_sadd_self]
      · obtain ⟨o1, o2, o3, o4⟩ := (disjoint_extract s k (hd k)).2.2.2 hfl
        simp [o1, o3, o4, smem_srem_self, smem_sadd_self]
    · have := hd k
      unfold inCount at this ⊢
      simp only [smem_srem_ne _ _ _ hk, smem_sadd_ne _ _ _ hk]
      exact this

/-- One cleanup step preserves mutual exclusivity and the loop invariant
(every id is in the scanned queue, already failed, or has no stored data);
ids other than the processed one keep their memberships and data. -/
theorem cleanupStep_disjoint_inv (q : QKind) (now : Nat)
    (fs : String → Bool) (s : QueueState) (n : Nat) (i : String)
    (hd : StateDisjoint s)
    (hi : memQ s q i = true ∨ smem s.failed i = true ∨
      getTask s i = none) :
    StateDisjoint (cleanupStep q now fs (s, n) i).1 ∧
    (memQ (cleanupStep q now fs (s, n) i).1 q i = true ∨
      smem (cleanupStep q now fs (s, n) i).1.failed i = true ∨
      getTask (cleanupStep q now fs (s, n) i).1 i = none) ∧
    (∀ j, j ≠ i →
      memQ (cleanupStep q now fs (s, n) i).1 q j = memQ s q j ∧
      smem (cleanupStep q now fs (s, n) i).1.failed j = smem s.failed j ∧
      getTask (cleanupStep q now fs (s, n) i).1 j = getTask s j) := by
  rw [cleanupStep_eq]
  cases hget : getTask s i with
  | none =>
    dsimp only []
    refine ⟨?_, Or.inr (Or.inr ?_), ?_⟩
    · intro k
      exact Nat.le_trans (inCount_removeFromQueue_le s q i k) (hd k)
    · unfold getTask
      rw [removeFromQueue_taskData]
      exact hget
    · intro j hj
      refine ⟨memQ_removeFromQueue_ne s q i j hj, ?_, ?_⟩
      · rw [removeFromQueue_failed]
      · unfold getTask
        rw [removeFromQueue_taskData]
  | some task =>
    have hi2 : memQ s q i = true ∨ smem s.failed i = true := by
      rcases hi with h | h | h
      · exact Or.inl h
      · exact Or.inr h
      · rw [hget] at h
        exact absurd h (Option.some_ne_none _)
    dsimp only []
    split
    · dsimp only []
      refine ⟨removeTaskCompletely_disjoint s q i hd hi2,
        Or.inr (Or.inl ?_), ?_⟩
      · rw [removeTaskCompletely_failed]
        exact smem_sadd_self _ _
      · intro j hj
        refine ⟨memQ_removeTaskCompletely_ne s q i j hj, ?_, ?_⟩
        · rw [removeTaskCompletely_failed]
          exact smem_sadd_ne _ _ _ hj
        · unfold getTask
          exact removeTaskCompletely_data_ne s q i j (Ne.symm hj)
    · split
      · split
        · split
          · dsimp only []
            refine ⟨removeTaskCompletely_disjoint s q i hd hi2,
              Or.inr (Or.inl ?_), ?_⟩
            · rw [removeTaskCompletely_failed]
              exact smem_sadd_self _ _
            · intro j hj
              refine ⟨memQ_removeTaskCompletely_ne s q i j hj, ?_, ?_⟩
              · rw [removeTaskCompletely_failed]
                exact smem_sadd_ne _ _ _ hj
              · unfold getTask
                exact removeTaskCompletely_data_ne s q i j (Ne.symm hj)
          · exact ⟨hd, hi, fun j hj => ⟨rfl, rfl, rfl⟩⟩
        · exact ⟨hd, hi, fun j hj => ⟨rfl, rfl, rfl⟩⟩
      · exact ⟨hd, hi, fun j hj => ⟨rfl, rfl, rfl⟩⟩

/-- The cleanup fold preserves mutual exclusivity under the scan
invariant. -/
theorem cleanupFold_disjoint (q : QKind) (now : Nat) (fs : String → Bool)
    (ids : List String) (s : QueueState) (n : Nat)
    (hd : StateDisjoint s)
    (hsrc : ∀ j ∈ ids, memQ s q j = true ∨ smem s.failed j = true ∨
      getTask s j = none) :
    StateDisjoint (ids.foldl (cleanupStep q now fs) (s, n)).1 := by
  induction ids generalizing s n with
  | nil => exact hd
  | cons i rest ih =>
    rw [List.foldl_cons]
    have hi := hsrc i (List.mem_cons_self i rest)
    obtain ⟨h1, h2, h3⟩ := cleanupStep_disjoint_inv q now fs s n i hd hi
    refine ih (cleanupStep q now fs (s, n) i).1
      (cleanupStep q now fs (s, n) i).2 h1 ?_
    intro j hj
    by_cases hji : j = i
    · subst hji
      exact h2
    · obtain ⟨e1, e2, e3⟩ := h3 j hji
      rw [e1, e2, e3]
      exact hsrc j (List.mem_cons_of_mem i hj)

theorem mem_queueIdsOf (s : QueueState) (q : QKind) (j : String)
    (h : j ∈ queueIdsOf s q) : memQ s q j = true := by
  cases q <;> simp only [queueIdsOf] at h
  · exact mem_zrangeFromZero _ _ _ h
  · exact mem_zrangeFromZero _ _ _ h
  · exact (smem_iff _ _).mpr h

theorem cleanupQueueByCriteria_disjoint (st : QueueState) (q : QKind)
    (now : Nat) (fs : String → Bool) (hd : StateDisjoint st) :
    StateDisjoint (cleanupQueueByCriteria st q now fs).1 := by
  unfold cleanupQueueByCriteria
  exact cleanupFold_disjoint q now fs _ st 0 hd
    (fun j hj => Or.inl (mem_queueIdsOf st q j hj))

/-- The full reaper pass preserves mutual exclusivity. -/
theorem cleanupAllQueues_disjoint (st : QueueState) (now : Nat)
    (fs : String → Bool) (hd : StateDisjoint st) :
    StateDisjoint (cleanupAllQueues st now fs).1 := by
  unfold cleanupAllQueues
  dsimp only []
  exact cleanupQueueByCriteria_disjoint _ _ _ _
    (cleanupQueueByCriteria_disjoint _ _ _ _
      (cleanupQueueByCriteria_disjoint _ _ _ _ hd))

/-- C5 (amended): the five membership sets (pending, processing, retry,
completed, failed) stay MUTUALLY EXCLUSIVE under every queue operation:
`submit` of a task id in no set places it in exactly one set (pending);
pull/`get_batch` preserves mutual exclusivity unconditionally, as do
`cancel_job` and the reaper pass; `mark_complete` and `mark_failed`
preserve it provided the task being completed/failed is not already in a
conflicting set (it is in processing or in no set).  The original claim's
stronger "exactly one set" partition is NOT preserved by every operation:
`cancel_job` leaves a still-registered task id in NO set (see the
counterexample), as does the orphan branch of the reaper. -/
theorem queuePartition_behaviour :
    (∀ st t, StateDisjoint st → inCount st t.task_id = 0 →
      StateDisjoint (submit st t) ∧
      inCount (submit st t) t.task_id = 1) ∧
    (∀ st limit, StateDisjoint st → StateDisjoint (getBatch st limit).1) ∧
    (∀ st tid rp, StateDisjoint st → zmem st.pending tid = false →
      zmem st.retry tid = false → smem st.failed tid = false →
      StateDisjoint (markComplete st tid rp)) ∧
    (∀ st tid err rl perm, StateDisjoint st →
      zmem st.pending tid = false → zmem st.retry tid = false →
      smem st.completed tid = false → smem st.failed tid = false →
      StateDisjoint (markFailed st tid err rl perm)) ∧
    (∀ st job, StateDisjoint st → StateDisjoint (cancelJob st job).1) ∧
    (∀ st now fs, StateDisjoint st →
      StateDisjoint (cleanupAllQueues st now fs).1) := by
  refine ⟨?_, ?_, ?_, ?_, ?_, ?_⟩
  · intro st t hd h0
    refine ⟨submit_disjoint st t hd h0, ?_⟩
    obtain ⟨hp, hpr, hr, hc, hf⟩ := submit_memb st t
    obtain ⟨f1, f2, f3, f4, f5⟩ := inCount_zero st t.task_id h0
    unfold inCount
    rw [hp, hpr, hr, hc, hf]
    simp [f2, f3, f4, f5, zmem_zadd_self]
  · exact fun st limit hd => getBatch_disjoint st limit hd
  · exact fun st tid rp hd hp hr hf =>
      markComplete_disjoint st tid rp hd hp hr hf
  · exact fun st tid err rl perm hd hp hr hc hf =>
      markFailed_disjoint st tid err rl perm hd hp hr hc hf
  · exact fun st job hd => cancelJob_disjoint st job hd
  · exact fun st now fs hd => cleanupAllQueues_disjoint st now fs hd

/-- C5 witness: on the empty queue, submitting the concrete task "T" keeps
the sets mutually exclusive and puts "T" in exactly one set; cancelling its
job preserves mutual exclusivity. -/
theorem queuePartition_behaviour_witness :
    (StateDisjoint (submit emptyQueue taskT) ∧
      inCount (submit emptyQueue taskT) taskT.task_id = 1) ∧
    StateDisjoint (cancelJob (submit emptyQueue taskT) "J").1 :=
  ⟨queuePartition_behaviour.1 emptyQueue taskT (fun id => Nat.zero_le 1) rfl,
   queuePartition_behaviour.2.2.2.2.1 (submit emptyQueue taskT) "J"
     (queuePartition_behaviour.1 emptyQueue taskT
       (fun id => Nat.zero_le 1) rfl).1⟩

end Regscope
